import Mathlib

/-!
Geobuf decoder (`geobuf.cpp`): embedding and verified properties.

The decoder is embedded as pure functions over already-decoded protocol
buffer fields.  The binary reader, the projection, the double arithmetic and
the double-to-string conversion are external to `geobuf.cpp`; they enter as
the fields of `Arith`.  Process termination through `exit(EXIT_FAILURE)` is
the `Except` error channel.

Machine integers: `size_t` values are naturals below `2^64` and every
`size_t` operation of the source is reduced modulo `2^64`; `long long`
additions wrap in two's complement (`wrapLL`); conversions between integer
types are the functions `toSize`, `toInt32`.  Memory allocation is assumed to
succeed.
-/

set_option linter.unusedVariables false

namespace Geobuf

/-! ## Machine integers -/

/-- Number of values of `size_t` / `uint64_t`. -/
def SIZE : Nat := 18446744073709551616

/-- Conversion of a signed integer to `size_t` (reduction modulo `2^64`). -/
def toSize (z : Int) : Nat := (z % 18446744073709551616).toNat

/-- Result of an overflowing `long long` addition: two's complement wrap. -/
def wrapLL (z : Int) : Int :=
  (z + 9223372036854775808) % 18446744073709551616 - 9223372036854775808

/-- Conversion of a `uint32_t` to `int` (as in `lengths.push_back(*it)`). -/
def toInt32 (u : Nat) : Int :=
  ((u : Int) + 2147483648) % 4294967296 - 2147483648

/-! ## Drawing commands (`mvt.hpp`, `geometry.hpp`) -/

/-- Drawing operations of `draw`. -/
inductive Op where
  | VT_MOVETO
  | VT_LINETO
  | VT_CLOSEPATH
  deriving DecidableEq, Repr

/-- One drawing command: `draw(op, x, y)`. -/
structure draw where
  op : Op
  x : Int
  y : Int
  deriving DecidableEq, Repr

/-- A drawing sequence. -/
abbrev drawvec := List draw

/-! ## External collaborators -/

/-- Operations that `geobuf.cpp` takes from its environment, over a carrier
`D` standing for `double`. -/
structure Arith (D : Type) where
  /-- conversion `long long → double` -/
  ofInt : Int → D
  /-- division of doubles -/
  div : D → D → D
  /-- the call `projection->project(x, y, zoom, &x', &y')` -/
  project : D → D → Nat → Int × Int
  /-- the call `pow(10, n)` -/
  pow10 : Int → D
  /-- the literal `1e6` -/
  lit1e6 : D
  /-- the call `milo::dtoa_milo(d)` -/
  dtoa : D → String

/-- Ways in which decoding does not return. -/
inductive Abort where
  /-- `Internal error: line segment %zu vs %zu`, then `exit` -/
  | lineSegment (index size : Nat)
  /-- `Geometry has fewer than 2 dimensions: %zu`, then `exit` -/
  | fewerDimensions (dim : Nat)
  /-- `Out of bounds key: %zu in %zu`, then `exit` -/
  | outOfBoundsKey (key size : Nat)
  /-- `Out of bounds value: %zu in %zu`, then `exit` -/
  | outOfBoundsValue (value size : Nat)
  /-- a read outside `coords` or of an uninitialised variable: the source has
  no defined behaviour -/
  | undefined
  /-- the read `lengths[index]` of `readMultiPolygon` with
  `index ≥ lengths.size()`: the source has no defined behaviour -/
  | lengthsOutOfRange (index size : Nat)
  /-- the loop of `readLinePart` revisits a value of `i` and never ends -/
  | diverges
  deriving DecidableEq, Repr

/-! ## Coordinate reconstruction -/

/-- The inner loop `for d < dim: prev[d] += coords[i + d]` of `readLinePart`,
over the slots of `prev` from slot `d` on; `j` is `i + d` before reduction. -/
def addDeltas (coords : List Int) : Nat → List Int → Option (List Int)
  | _, [] => some []
  | j, v :: prev =>
    match coords[j % 18446744073709551616]?, addDeltas coords (j + 1) prev with
    | some c, some rest => some (wrapLL (v + c) :: rest)
    | _, _ => none

/-- The command pushed by one iteration of `readLinePart`: `p[d] = prev[d] / e`,
then `project(p[0], p[1], 32)`. -/
def pointOf {D : Type} (A : Arith D) (e : D) (op : Op) (prev : List Int) : Option draw :=
  match prev.map (fun v => A.div (A.ofInt v) e) with
  | p0 :: p1 :: _ => some ⟨op, (A.project p0 p1 32).1, (A.project p0 p1 32).2⟩
  | _ => none

/-- The `for (i = start; i + dim - 1 < end; i += dim)` loop of `readLinePart`.
The first argument bounds the number of iterations. -/
def readLinePartLoop {D : Type} (A : Arith D) (coords : List Int) (dim : Nat) (e : D)
    (start end_ : Nat) : Nat → Nat → List Int → drawvec → Except Abort drawvec
  | 0, _, _, _ => .error .diverges
  | fuel + 1, i, prev, dv =>
    if (i + dim + 18446744073709551615) % 18446744073709551616 < end_ then
      if (i + dim + 18446744073709551615) % 18446744073709551616 ≥ coords.length then
        .error (.lineSegment ((i + dim + 18446744073709551615) % 18446744073709551616)
          coords.length)
      else
        match addDeltas coords i prev with
        | none => .error .undefined
        | some prev' =>
          match pointOf A e (if i = start then .VT_MOVETO else .VT_LINETO) prev' with
          | none => .error .undefined
          | some c =>
            readLinePartLoop A coords dim e start end_ fuel
              ((i + dim) % 18446744073709551616) prev' (dv ++ [c])
    else .ok dv

/-- The closing step `if (closed && dv.size() > 0) dv.push_back(LINETO dv[0])`. -/
def closeRun (closed : Bool) (dv : drawvec) : drawvec :=
  match closed, dv with
  | true, d0 :: _ => dv ++ [⟨.VT_LINETO, d0.x, d0.y⟩]
  | _, _ => dv

/-- `readLinePart`: one run over the scalar range `[start, end)`.  The loop
variable has `2^64` values and the control flow depends on it alone, so
`2^64` iterations without leaving the loop mean that it never ends. -/
def readLinePart {D : Type} (A : Arith D) (coords : List Int) (lengths : List Int)
    (dim : Nat) (e : D) (start end_ : Nat) (closed : Bool) : Except Abort drawvec :=
  match readLinePartLoop A coords dim e start end_ SIZE start (List.replicate dim 0) [] with
  | .error err => .error err
  | .ok dv => .ok (closeRun closed dv)

/-- `readLine`: the run over the whole buffer. -/
def readLine {D : Type} (A : Arith D) (coords : List Int) (lengths : List Int)
    (dim : Nat) (e : D) (closed : Bool) : Except Abort drawvec :=
  readLinePart A coords lengths dim e 0 coords.length closed

/-- `readPoint`: the tuple at offset 0; `coords[0]` and `coords[1]` are read
without a bounds check. -/
def readPoint {D : Type} (A : Arith D) (coords : List Int) (lengths : List Int)
    (dim : Nat) (e : D) : Except Abort drawvec :=
  match coords with
  | c0 :: c1 :: _ =>
    .ok [⟨.VT_MOVETO, (A.project (A.div (A.ofInt c0) e) (A.div (A.ofInt c1) e) 32).1,
      (A.project (A.div (A.ofInt c0) e) (A.div (A.ofInt c1) e) 32).2⟩]
  | _ => .error .undefined

/-- The loop `for (i = 0; i < lengths.size(); i++)` of `readMultiLine`, over the
entries of `lengths` not yet visited; `here` and `dv` are the loop state. -/
def readMultiLineLoop {D : Type} (A : Arith D) (coords : List Int) (lengths : List Int)
    (dim : Nat) (e : D) (closed : Bool) : List Int → Nat → drawvec → Except Abort drawvec
  | [], _, dv => .ok dv
  | l :: rest, here, dv =>
    match readLinePart A coords lengths dim e here
        ((here + (toSize l * dim) % 18446744073709551616) % 18446744073709551616) closed with
    | .error err => .error err
    | .ok dv2 =>
      readMultiLineLoop A coords lengths dim e closed rest
        ((here + (toSize l * dim) % 18446744073709551616) % 18446744073709551616) (dv ++ dv2)

/-- `readMultiLine`: the whole buffer when `lengths` is empty, else one run per
entry of `lengths`. -/
def readMultiLine {D : Type} (A : Arith D) (coords : List Int) (lengths : List Int)
    (dim : Nat) (e : D) (closed : Bool) : Except Abort drawvec :=
  if lengths.length = 0 then
    readLinePart A coords lengths dim e 0 coords.length closed
  else
    readMultiLineLoop A coords lengths dim e closed lengths 0 []

/-- State of the loops of `readMultiPolygon`: the cursor `n` into `lengths`, the
offset `here` into `coords` and the commands so far. -/
structure PolyState where
  n : Nat
  here : Nat
  dv : drawvec
  deriving DecidableEq, Repr

/-- The loop `for (j = 0; j < rings; j++)` of `readMultiPolygon`; the first
argument is the number of rings still to read.  `lengths[n]` is read without a
bounds check. -/
def readRings {D : Type} (A : Arith D) (coords : List Int) (lengths : List Int)
    (dim : Nat) (e : D) : Nat → PolyState → Except Abort PolyState
  | 0, st => .ok st
  | rings + 1, st =>
    match lengths[st.n]? with
    | none => .error (.lengthsOutOfRange st.n lengths.length)
    | some l =>
      match readLinePart A coords lengths dim e st.here
          ((st.here + (toSize l * dim) % 18446744073709551616) % 18446744073709551616)
          true with
      | .error err => .error err
      | .ok dv2 =>
        readRings A coords lengths dim e rings
          ⟨st.n + 1,
            (st.here + (toSize l * dim) % 18446744073709551616) % 18446744073709551616,
            st.dv ++ dv2⟩

/-- The loop `for (i = 0; i < polys; i++)` of `readMultiPolygon`; the first
argument is the number of polygons still to read. -/
def readPolys {D : Type} (A : Arith D) (coords : List Int) (lengths : List Int)
    (dim : Nat) (e : D) : Nat → PolyState → Except Abort PolyState
  | 0, st => .ok st
  | polys + 1, st =>
    match lengths[st.n]? with
    | none => .error (.lengthsOutOfRange st.n lengths.length)
    | some rings =>
      match readRings A coords lengths dim e (toSize rings) ⟨st.n + 1, st.here, st.dv⟩ with
      | .error err => .error err
      | .ok st2 =>
        readPolys A coords lengths dim e polys
          ⟨st2.n, st2.here, st2.dv ++ [⟨.VT_CLOSEPATH, 0, 0⟩]⟩

/-- `readMultiPolygon`. -/
def readMultiPolygon {D : Type} (A : Arith D) (coords : List Int) (lengths : List Int)
    (dim : Nat) (e : D) : Except Abort drawvec :=
  match lengths with
  | [] => readLinePart A coords lengths dim e 0 coords.length true
  | polys :: _ =>
    match readPolys A coords lengths dim e (toSize polys) ⟨1, 0, []⟩ with
    | .error err => .error err
    | .ok st => .ok st.dv

/-! ## Messages, as the reader presents them

A message is the list of its fields in arrival order; each field is its tag
together with the primitive that the getter used by `geobuf.cpp` for that tag
returns. -/

/-- Fields of a geometry message. -/
inductive GeometryField where
  /-- tag 1, `get_enum` -/
  | type (t : Int)
  /-- tag 2, `get_packed_uint32` -/
  | lengths (xs : List Nat)
  /-- tag 3, `get_packed_sint64` -/
  | coords (xs : List Int)
  /-- tag 4, `get_message`: a nested geometry -/
  | geometries (g : List GeometryField)
  /-- any other tag -/
  | other (tag : Nat)

/-- Fields of a property value message. -/
inductive ValueField (D : Type) where
  /-- tag 1, `get_string` -/
  | string_value (s : String)
  /-- tag 2, `get_double` -/
  | double_value (d : D)
  /-- tag 3, `get_uint64` -/
  | pos_int_value (v : Nat)
  /-- tag 4, `get_uint64` -/
  | neg_int_value (v : Nat)
  /-- tag 5, `get_bool` -/
  | bool_value (b : Bool)
  /-- tag 6, `get_string` -/
  | json_value (s : String)
  /-- any other tag -/
  | other (tag : Nat)

/-- Fields of a feature message. -/
inductive FeatureField (D : Type) where
  /-- tag 1, `get_message` -/
  | geometry (g : List GeometryField)
  /-- tag 11: a non-numeric id, skipped -/
  | id (s : String)
  /-- tag 12, `get_int64` -/
  | int_id (v : Int)
  /-- tag 13, `get_message` -/
  | values (v : List (ValueField D))
  /-- tag 14, `get_packed_uint32` -/
  | properties (xs : List Nat)
  /-- any other tag -/
  | other (tag : Nat)

/-- Fields of a feature collection message. -/
inductive CollectionField (D : Type) where
  /-- tag 1, `get_message` -/
  | features (f : List (FeatureField D))
  /-- any other tag -/
  | other (tag : Nat)

/-- Top-level fields of a document. -/
inductive DataField (D : Type) where
  /-- tag 1, `get_string` -/
  | keys (s : String)
  /-- tag 2, `get_int64` -/
  | dimensions (v : Int)
  /-- tag 3, `get_int64` -/
  | precision (v : Int)
  /-- tag 4, `get_message` -/
  | feature_collection (fc : List (CollectionField D))
  /-- tag 5, `get_message` -/
  | feature (f : List (FeatureField D))
  /-- tag 6, `get_message` -/
  | geometry (g : List GeometryField)
  /-- any other tag -/
  | other (tag : Nat)

/-! ## Values -/

/-- The value types of `mvt.hpp` that `readValue` assigns. -/
inductive mvt_value_type where
  | mvt_string
  | mvt_double
  | mvt_bool
  | mvt_null
  deriving DecidableEq, Repr

/-- A decoded property value (`serial_val`). -/
structure serial_val where
  type : mvt_value_type
  s : String
  deriving DecidableEq, Repr

/-- One iteration of the `switch` of `readValue`.  In case 4 the operand of
`-` is a `uint64_t`, so the negation is taken modulo `2^64`. -/
def readValueField {D : Type} (A : Arith D) (sv : serial_val) : ValueField D → serial_val
  | .string_value s => ⟨.mvt_string, s⟩
  | .double_value d => ⟨.mvt_double, A.dtoa d⟩
  | .pos_int_value v => ⟨.mvt_double, toString (v % 18446744073709551616)⟩
  | .neg_int_value v =>
    ⟨.mvt_double,
      toString ((18446744073709551616 - v % 18446744073709551616) % 18446744073709551616)⟩
  | .bool_value b => ⟨.mvt_bool, if b then "true" else "false"⟩
  | .json_value s => ⟨.mvt_string, s⟩
  | .other _ => sv

/-- `readValue`. -/
def readValue {D : Type} (A : Arith D) (pbf : List (ValueField D)) (keys : List String) :
    serial_val :=
  pbf.foldl (readValueField A) ⟨.mvt_null, "null"⟩

/-! ## Geometry messages -/

/-- The locals of `readGeometry` while its fields are read. -/
structure GeometryState where
  coords : List Int
  lengths : List Int
  type : Option Int
  deriving DecidableEq, Repr

/-- The dispatch on `type` at the end of `readGeometry`, with the declared
type codes `POINT = 0` to `MULTIPOLYGON = 5`. -/
def dispatchGeometry {D : Type} (A : Arith D) (coords : List Int) (lengths : List Int)
    (dim : Nat) (e : D) (type : Int) : Except Abort drawvec :=
  if type = 0 then readPoint A coords lengths dim e
  else if type = 1 then readLine A coords lengths dim e true
  else if type = 2 then readLine A coords lengths dim e false
  else if type = 4 then readMultiLine A coords lengths dim e true
  else if type = 5 then readMultiPolygon A coords lengths dim e
  else .ok []

/-- The end of `readGeometry`, after the field loop: the dispatch on `type` and
`type = type / 2 + 1`.  The result is the drawing sequence and the final value
of `type`. -/
def finishGeometry {D : Type} (A : Arith D) (dim : Nat) (e : D) :
    Except Abort GeometryState → Except Abort (drawvec × Int)
  | .error err => .error err
  | .ok st =>
    match st.type with
    | none => .error .undefined
    | some t =>
      match dispatchGeometry A st.coords st.lengths dim e t with
      | .error err => .error err
      | .ok dv => .ok (dv, Int.tdiv t 2 + 1)

mutual
/-- The `while (pbf.next())` loop of `readGeometry`. -/
def readGeometryFields {D : Type} (A : Arith D) (dim : Nat) (e : D) (keys : List String) :
    List GeometryField → GeometryState → Except Abort GeometryState
  | [], st => .ok st
  | f :: rest, st =>
    match readGeometryField A dim e keys f st with
    | .error err => .error err
    | .ok st2 => readGeometryFields A dim e keys rest st2
/-- The `switch (pbf.tag())` of `readGeometry`.  In case 4 the nested geometry
is read by `readGeometry` itself, with an uninitialised `type2`, and its result
is dropped. -/
def readGeometryField {D : Type} (A : Arith D) (dim : Nat) (e : D) (keys : List String) :
    GeometryField → GeometryState → Except Abort GeometryState
  | .type t, st => .ok { st with type := some t }
  | .lengths xs, st => .ok { st with lengths := st.lengths ++ xs.map toInt32 }
  | .coords xs, st => .ok { st with coords := st.coords ++ xs }
  | .geometries g, st =>
    match finishGeometry A dim e (readGeometryFields A dim e keys g ⟨[], [], none⟩) with
    | .error err => .error err
    | .ok _ => .ok st
  | .other _, st => .ok st
end

/-- `readGeometry`: the drawing sequence and the final value of `type`.  The
argument `type` is the caller's variable, `none` when it is uninitialised. -/
def readGeometry {D : Type} (A : Arith D) (dim : Nat) (e : D) (keys : List String)
    (pbf : List GeometryField) (type : Option Int) : Except Abort (drawvec × Int) :=
  finishGeometry A dim e (readGeometryFields A dim e keys pbf ⟨[], [], type⟩)

/-! ## Features -/

/-- The record handed to the sink (`serial_feature`, the fields that
`readFeature` assigns). -/
structure serial_feature where
  layer : Int
  layername : String
  segment : Int
  has_id : Bool
  id : Int
  has_tippecanoe_minzoom : Bool
  has_tippecanoe_maxzoom : Bool
  feature_minzoom : Int
  seq : Nat
  geometry : drawvec
  t : Int
  full_keys : List String
  full_values : List serial_val
  m : Nat
  deriving DecidableEq, Repr

/-- The sink side of `serialization_state`: the calls made to
`serialize_feature` so far, in order.  The counter `*sst->layer_seq` belongs to
the sink; `layer_seq` gives its value after a given sequence of calls. -/
structure serialization_state where
  layer_seq : List serial_feature → Nat
  calls : List serial_feature

/-- The call `serialize_feature(sst, sf)`. -/
def serialize_feature (sst : serialization_state) (sf : serial_feature) :
    serialization_state :=
  { sst with calls := sst.calls ++ [sf] }

/-- The locals of `readFeature` while its fields are read. -/
structure FeatureState where
  dv : drawvec
  id : Int
  has_id : Bool
  values : List serial_val
  properties : List Nat
  type : Int
  deriving DecidableEq, Repr

/-- The initial locals of `readFeature`: `id = 0`, `has_id = false`,
`type = 0`, empty vectors. -/
def featureInit : FeatureState := ⟨[], 0, false, [], [], 0⟩

/-- The `while (pbf.next())` loop of `readFeature`. -/
def readFeatureFields {D : Type} (A : Arith D) (dim : Nat) (e : D) (keys : List String) :
    List (FeatureField D) → FeatureState → Except Abort FeatureState
  | [], st => .ok st
  | .geometry g :: rest, st =>
    match readGeometry A dim e keys g (some st.type) with
    | .error err => .error err
    | .ok r => readFeatureFields A dim e keys rest { st with dv := r.1, type := r.2 }
  | .id _ :: rest, st => readFeatureFields A dim e keys rest st
  | .int_id v :: rest, st =>
    readFeatureFields A dim e keys rest { st with id := v, has_id := true }
  | .values v :: rest, st =>
    readFeatureFields A dim e keys rest { st with values := st.values ++ [readValue A v keys] }
  | .properties xs :: rest, st =>
    readFeatureFields A dim e keys rest { st with properties := st.properties ++ xs }
  | .other _ :: rest, st => readFeatureFields A dim e keys rest st

/-- The loop `for (i = 0; i + 1 < properties.size(); i += 2)` of `readFeature`,
over the entries of `properties` from index `i` on; the result is
`(full_keys, full_values)`. -/
def resolveProperties (keys : List String) (values : List serial_val) :
    List Nat → List String × List serial_val → Except Abort (List String × List serial_val)
  | k :: v :: rest, acc =>
    match keys[k]?, values[v]? with
    | none, _ => .error (.outOfBoundsKey k keys.length)
    | some _, none => .error (.outOfBoundsValue v values.length)
    | some key, some value => resolveProperties keys values rest (acc.1 ++ [key], acc.2 ++ [value])
  | _, acc => .ok acc

/-- Outcome of a call that may reach the sink: the sink afterwards, and the
fatal error when the process was terminated. -/
structure Outcome where
  sst : serialization_state
  abort : Option Abort

/-- `readFeature`. -/
def readFeature {D : Type} (A : Arith D) (pbf : List (FeatureField D)) (dim : Nat) (e : D)
    (keys : List String) (sst : serialization_state) (layer : Int) (layername : String) :
    Outcome :=
  match readFeatureFields A dim e keys pbf featureInit with
  | .error err => ⟨sst, some err⟩
  | .ok st =>
    match resolveProperties keys st.values st.properties ([], []) with
    | .error err => ⟨sst, some err⟩
    | .ok kv =>
      ⟨serialize_feature sst
        { layer := layer, layername := layername, segment := 0, has_id := st.has_id,
          id := st.id, has_tippecanoe_minzoom := false, has_tippecanoe_maxzoom := false,
          feature_minzoom := 0, seq := sst.layer_seq sst.calls, geometry := st.dv,
          t := st.type, full_keys := kv.1, full_values := kv.2, m := kv.2.length },
        none⟩

/-- `readFeatureCollection`. -/
def readFeatureCollection {D : Type} (A : Arith D) (dim : Nat) (e : D) (keys : List String)
    (layer : Int) (layername : String) :
    List (CollectionField D) → serialization_state → Outcome
  | [], sst => ⟨sst, none⟩
  | .features f :: rest, sst =>
    match readFeature A f dim e keys sst layer layername with
    | ⟨sst2, none⟩ => readFeatureCollection A dim e keys layer layername rest sst2
    | out => out
  | .other _ :: rest, sst => readFeatureCollection A dim e keys layer layername rest sst

/-! ## Documents -/

/-- The locals of `parse_geobuf`, with the sink. -/
structure DataState (D : Type) where
  dim : Nat
  e : D
  keys : List String
  sst : serialization_state

/-- The `while (pbf.next())` loop of `parse_geobuf`: the state when the loop
was left, and the fatal error when it was left through `exit`. -/
def parseFields {D : Type} (A : Arith D) (layer : Int) (layername : String) :
    List (DataField D) → DataState D → DataState D × Option Abort
  | [], st => (st, none)
  | .keys s :: rest, st => parseFields A layer layername rest { st with keys := st.keys ++ [s] }
  | .dimensions v :: rest, st =>
    if toSize v < 2 then ({ st with dim := toSize v }, some (.fewerDimensions (toSize v)))
    else parseFields A layer layername rest { st with dim := toSize v }
  | .precision v :: rest, st => parseFields A layer layername rest { st with e := A.pow10 v }
  | .feature_collection fc :: rest, st =>
    match readFeatureCollection A st.dim st.e st.keys layer layername fc st.sst with
    | ⟨sst2, none⟩ => parseFields A layer layername rest { st with sst := sst2 }
    | ⟨sst2, some err⟩ => ({ st with sst := sst2 }, some err)
  | .feature f :: rest, st =>
    match readFeature A f st.dim st.e st.keys st.sst layer layername with
    | ⟨sst2, none⟩ => parseFields A layer layername rest { st with sst := sst2 }
    | ⟨sst2, some err⟩ => ({ st with sst := sst2 }, some err)
  | .geometry g :: rest, st =>
    match readGeometry A st.dim st.e st.keys g none with
    | .error err => (st, some err)
    | .ok _ => parseFields A layer layername rest st
  | .other _ :: rest, st => parseFields A layer layername rest st

/-- The state of `parse_geobuf` before the first field: `dim = 2`, `e = 1e6`,
no keys. -/
def dataInit {D : Type} (A : Arith D) (sst : serialization_state) : DataState D :=
  ⟨2, A.lit1e6, [], sst⟩

/-- `parse_geobuf`: the document `src` is its list of top-level fields. -/
def parse_geobuf {D : Type} (A : Arith D) (sst : serialization_state)
    (src : List (DataField D)) (layer : Int) (layername : String) : Outcome :=
  match parseFields A layer layername src (dataInit A sst) with
  | (st, abort) => ⟨st.sst, abort⟩

instance instDecEqExcept {ε α : Type} [DecidableEq ε] [DecidableEq α] :
    DecidableEq (Except ε α)
  | .ok a, .ok b => if h : a = b then isTrue (congrArg _ h) else isFalse (fun h2 => h (Except.ok.inj h2))
  | .error a, .error b =>
    if h : a = b then isTrue (congrArg _ h) else isFalse (fun h2 => h (Except.error.inj h2))
  | .ok _, .error _ => isFalse (fun h => Except.noConfusion h)
  | .error _, .ok _ => isFalse (fun h => Except.noConfusion h)

/-- A projection stub over `D = Int`: integer division for the scale and a
projection that returns its input unchanged. -/
def stub : Arith Int where
  ofInt := id
  div := fun a b => a / b
  project := fun x y _ => (x, y)
  pow10 := fun n => 10 ^ n.toNat
  lit1e6 := 1000000
  dtoa := fun d => toString d

/-- A sink that has not been called yet and whose sequence counter is the
number of calls made. -/
def sst0 : serialization_state := ⟨List.length, []⟩

/-- A feature message with two values and the property array `[1, 0, 0, 1]`. -/
def featureTwoProperties : List (FeatureField Int) :=
  [.values [.string_value "x"], .values [.pos_int_value 7], .properties [1, 0, 0, 1]]

/-- A feature message whose only pair `(0, 0)` names a value that the feature
does not have. -/
def featureMissingValue : List (FeatureField Int) :=
  [.properties [0, 0]]

/-- A feature message whose Polygon asks for one tuple of an empty buffer and
whose only pair `(0, 0)` is out of bounds for an empty key dictionary. -/
def featureBadGeometry : List (FeatureField Int) :=
  [.geometry [.type 4, .lengths [1]], .properties [0, 0]]

/-- A feature message whose geometry is the Point `(3, 4)`, in units of
`10^-6`. -/
def featurePoint : List (FeatureField Int) :=
  [.geometry [.type 0, .coords [3000000, 4000000]]]

/-! ## Closed forms used in the statements -/

/-- The accumulator `prev[d]` of `readLinePart` after `k` iterations of a run
that starts at scalar index `start`. -/
def prevAfter (coords : List Int) (dim start d : Nat) : Nat → Int
  | 0 => 0
  | k + 1 => wrapLL (prevAfter coords dim start d k + coords.getD (start + k * dim + d) 0)

/-- The command `draw(op, x, y)` with `(x, y) = project(a / e, b / e, 32)`. -/
def drawAt {D : Type} (A : Arith D) (e : D) (op : Op) (a b : Int) : draw :=
  ⟨op, (A.project (A.div (A.ofInt a) e) (A.div (A.ofInt b) e) 32).1,
    (A.project (A.div (A.ofInt a) e) (A.div (A.ofInt b) e) 32).2⟩

/-- Command `k` of a run that starts at scalar index `start`. -/
def runCommand {D : Type} (A : Arith D) (e : D) (coords : List Int) (dim start k : Nat) :
    draw :=
  drawAt A e (if k = 0 then .VT_MOVETO else .VT_LINETO)
    (prevAfter coords dim start 0 (k + 1)) (prevAfter coords dim start 1 (k + 1))

/-- The commands of the first `m` tuples of a run that starts at `start`. -/
def runCommands {D : Type} (A : Arith D) (e : D) (coords : List Int) (dim start m : Nat) :
    drawvec :=
  (List.range m).map (runCommand A e coords dim start)

/-- The sum of `coords[j * dim + d]` for `j ≤ k`, as an integer. -/
def deltaSum (coords : List Int) (dim d k : Nat) : Int :=
  (Finset.range (k + 1)).sum (fun j => coords.getD (j * dim + d) 0)

/-- The vector `prev` of `readLinePart` after `k` iterations. -/
def prevList (coords : List Int) (dim start k : Nat) : List Int :=
  (List.range' 0 dim).map (fun d => prevAfter coords dim start d k)

/-- The commands of `readMultiLine` for the tuple counts `ls`, the first run
starting at scalar index `here`. -/
def multiRuns {D : Type} (A : Arith D) (e : D) (coords : List Int) (dim : Nat)
    (closed : Bool) : List Nat → Nat → drawvec
  | [], _ => []
  | l :: ls, here =>
    closeRun closed (runCommands A e coords dim here l)
      ++ multiRuns A e coords dim closed ls (here + l * dim)

/-- The consecutive slices of a buffer for the tuple counts `ls`: slice `i`
holds the next `ls[i] * dim` scalars. -/
def ringSlices (dim : Nat) : List Nat → List Int → List (List Int)
  | [], _ => []
  | l :: ls, coords => coords.take (l * dim) :: ringSlices dim ls (coords.drop (l * dim))

/-- In-order concatenation of the results of several runs; a fatal error in
one of them is the result. -/
def concatRuns : List (Except Abort drawvec) → Except Abort drawvec
  | [] => .ok []
  | .error err :: _ => .error err
  | .ok dv :: rest =>
    match concatRuns rest with
    | .error err => .error err
    | .ok dv2 => .ok (dv ++ dv2)

/-- The `lengths` array of a MultiPolygon, given the ring tuple-counts of each
of its polygons: the number of polygons, then for each polygon its number of
rings followed by the tuple count of each ring. -/
def multiPolygonLengths (polys : List (List Nat)) : List Int :=
  Int.ofNat polys.length
    :: (polys.map (fun rings => Int.ofNat rings.length :: rings.map Int.ofNat)).flatten

/-- The commands of a MultiPolygon whose first ring starts at tuple offset
`off`: polygon by polygon, the closed runs of its rings, each ring starting at
the tuple offset that is the sum of the counts of all earlier rings, and then
one ClosePath. -/
def multiPolygonCommands {D : Type} (A : Arith D) (e : D) (coords : List Int) (dim : Nat) :
    List (List Nat) → Nat → drawvec
  | [], _ => []
  | rings :: rest, off =>
    multiRuns A e coords dim true rings (off * dim) ++ [⟨.VT_CLOSEPATH, 0, 0⟩]
      ++ multiPolygonCommands A e coords dim rest (off + rings.sum)

/-- The total number of tuples of a MultiPolygon. -/
def totalTuples (polys : List (List Nat)) : Nat := (polys.map List.sum).sum

/-- The total number of rings of a MultiPolygon. -/
def totalRings (polys : List (List Nat)) : Nat := (polys.map List.length).sum

/-- The packed property array of a feature message: the contents of its
fields of tag 14, in order of appearance. -/
def propertyArray {D : Type} : List (FeatureField D) → List Nat
  | [] => []
  | .properties xs :: rest => xs ++ propertyArray rest
  | _ :: rest => propertyArray rest

/-- The value table of a feature message: the decoded values of its fields of
tag 13, in order of appearance. -/
def valueTable {D : Type} (A : Arith D) (keys : List String) :
    List (FeatureField D) → List serial_val
  | [] => []
  | .values v :: rest => readValue A v keys :: valueTable A keys rest
  | _ :: rest => valueTable A keys rest

/-- The array `[k_0, v_0, ..., k_(m-1), v_(m-1)]` of the pairs `(k_i, v_i)`. -/
def pairArray : List (Nat × Nat) → List Nat
  | [] => []
  | (k, v) :: rest => k :: v :: pairArray rest

/-- The property-index pairs of an array, taken two at a time from the
start; a last entry without a partner is no pair. -/
def pairsOf : List Nat → List (Nat × Nat)
  | k :: v :: rest => (k, v) :: pairsOf rest
  | _ => []

/-- Whether a top-level field carries feature sub-messages (tag 4 or tag 5). -/
def DataField.carriesFeatures {D : Type} : DataField D → Bool
  | .feature_collection _ => true
  | .feature _ => true
  | _ => false

/-- The feature sub-messages (tag 1) of a feature collection, in order. -/
def collectionFeatures {D : Type} : List (CollectionField D) → List (List (FeatureField D))
  | [] => []
  | .features f :: rest => f :: collectionFeatures rest
  | .other _ :: rest => collectionFeatures rest

/-- The feature sub-messages of a document, in document order: each top-level
single feature (tag 5) and each feature of each feature collection (tag 4). -/
def featureMessages {D : Type} : List (DataField D) → List (List (FeatureField D))
  | [] => []
  | .feature f :: rest => f :: featureMessages rest
  | .feature_collection fc :: rest => collectionFeatures fc ++ featureMessages rest
  | _ :: rest => featureMessages rest

/-- The record `sf` is what the sink receives in the one call that
`readFeature` makes for the feature message `f`, in some context. -/
def emittedFrom {D : Type} (A : Arith D) (layer : Int) (layername : String)
    (f : List (FeatureField D)) (sf : serial_feature) : Prop :=
  ∃ dim e keys sst,
    readFeature A f dim e keys sst layer layername = ⟨serialize_feature sst sf, none⟩

/-- A feature message that holds a signed-integer id only. -/
def featureOnlyId : List (FeatureField Int) := [.int_id 7]

/-- A document with two keys, a single feature, a bare geometry and a
collection of two features around an unknown field. -/
def documentThreeFeatures : List (DataField Int) :=
  [.keys "a", .keys "b", .feature featureOnlyId, .geometry [.type 2, .coords [1, 2]],
    .other 15, .feature_collection [.features featureTwoProperties, .other 9,
      .features featureOnlyId]]

/-- The declared type of a geometry message: the value of its last field of
tag 1; the caller's value of `type` when the message has no such field. -/
def declaredType : List GeometryField → Option Int → Option Int
  | [], t => t
  | .type t :: rest, _ => declaredType rest (some t)
  | .lengths _ :: rest, t => declaredType rest t
  | .coords _ :: rest, t => declaredType rest t
  | .geometries _ :: rest, t => declaredType rest t
  | .other _ :: rest, t => declaredType rest t

/-- Whether a field of a feature message is a geometry (tag 1). -/
def FeatureField.isGeometry {D : Type} : FeatureField D → Bool
  | .geometry _ => true
  | _ => false

/-- A feature message with an id and the Polygon of one ring `(0,0), (1,0),
(1,1)`, followed by an unknown field. -/
def featurePolygon : List (FeatureField Int) :=
  [.int_id 3, .geometry [.type 4, .lengths [3], .coords [0, 0, 1, 0, 0, 1]], .other 20]

/-- Whether a field of a value message has one of the tags 1 to 6. -/
def ValueField.recognised {D : Type} : ValueField D → Bool
  | .other _ => false
  | _ => true

/-- The value of the last signed-integer id field (tag 12) of a feature
message, if it has one. -/
def lastIntId {D : Type} : List (FeatureField D) → Option Int
  | [] => none
  | .int_id v :: rest =>
    match lastIntId rest with
    | some w => some w
    | none => some v
  | _ :: rest => lastIntId rest

/-- Whether a field of a feature message is a non-numeric id (tag 11). -/
def FeatureField.isNonNumericId {D : Type} : FeatureField D → Bool
  | .id _ => true
  | _ => false

/-- A feature message with a non-numeric id. -/
def featureStringId : List (FeatureField Int) :=
  [.id "abc", .values [.bool_value true]]

/-- A feature message with two signed-integer ids around a non-numeric one. -/
def featureTwoIds : List (FeatureField Int) :=
  [.int_id 5, .id "abc", .int_id (-9)]

/-- The buffer that keeps only the first two scalars of each of the first `n`
tuples of width `dim`. -/
def keepTwo (dim : Nat) : Nat → List Int → List Int
  | 0, _ => []
  | n + 1, coords => coords.take 2 ++ keepTwo dim n (coords.drop dim)

/-! ## Machine arithmetic -/

theorem wrapLL_add_left (a c : Int) : wrapLL (wrapLL a + c) = wrapLL (a + c) := by
  unfold wrapLL
  omega

theorem wrapLL_of_inRange (a : Int) (h1 : -9223372036854775808 ≤ a)
    (h2 : a < 9223372036854775808) : wrapLL a = a := by
  unfold wrapLL
  omega

theorem toSize_natCast (n : Nat) (h : n < 18446744073709551616) : toSize (n : Int) = n := by
  unfold toSize
  omega

/-! ## The loop of `readLinePart` -/

theorem addDeltas_range {coords : List Int} (i : Nat) (f : Nat → Int) :
    ∀ (n d0 : Nat), i + d0 + n ≤ coords.length → i + d0 + n ≤ SIZE →
      addDeltas coords (i + d0) ((List.range' d0 n).map f)
        = some ((List.range' d0 n).map (fun d => wrapLL (f d + coords.getD (i + d) 0))) := by
  intro n
  induction n with
  | zero => intro d0 _ _; simp [addDeltas]
  | succ n ih =>
    intro d0 h1 h2
    have hlt : i + d0 < coords.length := by omega
    have hmod : (i + d0) % 18446744073709551616 = i + d0 := by
      apply Nat.mod_eq_of_lt
      unfold SIZE at h2
      omega
    have hrec := ih (d0 + 1) (by omega) (by omega)
    rw [← Nat.add_assoc] at hrec
    simp only [List.range'_succ, List.map_cons, addDeltas, hmod, hrec]
    rw [List.getElem?_eq_getElem hlt]
    simp [List.getD_eq_getElem?_getD, List.getElem?_eq_getElem hlt]

theorem prevList_zero (coords : List Int) (dim start : Nat) :
    prevList coords dim start 0 = List.replicate dim 0 := by
  unfold prevList
  simp only [prevAfter]
  apply List.ext_getElem
  · simp
  · intro n h1 h2
    simp

theorem addDeltas_prevList {coords : List Int} {dim start k : Nat}
    (h1 : start + k * dim + dim ≤ coords.length) (h2 : start + k * dim + dim ≤ SIZE) :
    addDeltas coords (start + k * dim) (prevList coords dim start k)
      = some (prevList coords dim start (k + 1)) := by
  have h := @addDeltas_range coords (start + k * dim)
    (fun d => prevAfter coords dim start d k) dim 0 (by omega) (by omega)
  simp only [Nat.add_zero] at h
  rw [prevList, h, prevList]
  simp only [prevAfter]

theorem pointOf_prevList {D : Type} (A : Arith D) (e : D) (op : Op) (coords : List Int)
    {dim : Nat} (start k : Nat) (hdim : 2 ≤ dim) :
    pointOf A e op (prevList coords dim start k)
      = some (drawAt A e op (prevAfter coords dim start 0 k) (prevAfter coords dim start 1 k)) := by
  obtain ⟨n, rfl⟩ : ∃ n, dim = n + 2 := ⟨dim - 2, by omega⟩
  simp [pointOf, prevList, List.range'_succ, drawAt]

theorem readLinePartLoop_run {D : Type} (A : Arith D) (e : D) (coords : List Int)
    {dim start end_ m : Nat} (hdim : 2 ≤ dim) (hfit : start + m * dim ≤ coords.length)
    (hlo : start + m * dim ≤ end_) (hhi : end_ < start + m * dim + dim)
    (hsz : start + m * dim + dim ≤ SIZE) :
    ∀ (n k : Nat), k + n = m → ∀ (fuel : Nat), n < fuel → ∀ (dv : drawvec),
      readLinePartLoop A coords dim e start end_ fuel (start + k * dim)
          (prevList coords dim start k) dv
        = .ok (dv ++ (List.range' k n).map (runCommand A e coords dim start)) := by
  unfold SIZE at hsz
  intro n
  induction n with
  | zero =>
    intro k hk fuel hfuel dv
    obtain ⟨f, rfl⟩ : ∃ f, fuel = f + 1 := ⟨fuel - 1, by omega⟩
    have hkm : k = m := by omega
    subst hkm
    have hlast : (start + k * dim + dim + 18446744073709551615) % 18446744073709551616
        = start + k * dim + dim - 1 := by omega
    simp only [readLinePartLoop, hlast]
    rw [if_neg (by omega)]
    simp
  | succ n ih =>
    intro k hk fuel hfuel dv
    obtain ⟨f, rfl⟩ : ∃ f, fuel = f + 1 := ⟨fuel - 1, by omega⟩
    have hmul : (k + 1) * dim ≤ m * dim := Nat.mul_le_mul_right dim (by omega)
    have hsucc : (k + 1) * dim = k * dim + dim := Nat.succ_mul k dim
    have hlast : (start + k * dim + dim + 18446744073709551615) % 18446744073709551616
        = start + k * dim + dim - 1 := by omega
    have hnext : (start + k * dim + dim) % 18446744073709551616 = start + (k + 1) * dim := by
      omega
    have hop : (if start + k * dim = start then Op.VT_MOVETO else Op.VT_LINETO)
        = (if k = 0 then Op.VT_MOVETO else Op.VT_LINETO) := by
      by_cases hk0 : k = 0
      · subst hk0; simp
      · have hpos : 0 < k * dim := Nat.mul_pos (by omega) (by omega)
        rw [if_neg (by omega), if_neg hk0]
    simp only [readLinePartLoop, hlast]
    rw [if_pos (by omega), if_neg (by omega),
      addDeltas_prevList (by omega) (by unfold SIZE; omega)]
    simp only [pointOf_prevList A e _ coords start (k + 1) hdim, hnext, hop]
    rw [ih (k + 1) (by omega) f (by omega)]
    simp [List.range'_succ, runCommand]

theorem readLinePartLoop_fatal {D : Type} (A : Arith D) (e : D) (coords : List Int)
    {dim start end_ m : Nat} (hdim : 2 ≤ dim) (hfit : start + m * dim ≤ coords.length)
    (hout : coords.length < start + m * dim + dim) (hend : start + m * dim + dim ≤ end_)
    (hsz : start + m * dim + dim ≤ SIZE) :
    ∀ (n k : Nat), k + n = m → ∀ (fuel : Nat), n < fuel → ∀ (dv : drawvec),
      readLinePartLoop A coords dim e start end_ fuel (start + k * dim)
          (prevList coords dim start k) dv
        = .error (.lineSegment (start + m * dim + dim - 1) coords.length) := by
  unfold SIZE at hsz
  intro n
  induction n with
  | zero =>
    intro k hk fuel hfuel dv
    obtain ⟨f, rfl⟩ : ∃ f, fuel = f + 1 := ⟨fuel - 1, by omega⟩
    have hkm : k = m := by omega
    subst hkm
    have hlast : (start + k * dim + dim + 18446744073709551615) % 18446744073709551616
        = start + k * dim + dim - 1 := by omega
    simp only [readLinePartLoop, hlast]
    rw [if_pos (by omega), if_pos (by omega)]
  | succ n ih =>
    intro k hk fuel hfuel dv
    obtain ⟨f, rfl⟩ : ∃ f, fuel = f + 1 := ⟨fuel - 1, by omega⟩
    have hmul : (k + 1) * dim ≤ m * dim := Nat.mul_le_mul_right dim (by omega)
    have hsucc : (k + 1) * dim = k * dim + dim := Nat.succ_mul k dim
    have hlast : (start + k * dim + dim + 18446744073709551615) % 18446744073709551616
        = start + k * dim + dim - 1 := by omega
    have hnext : (start + k * dim + dim) % 18446744073709551616 = start + (k + 1) * dim := by
      omega
    simp only [readLinePartLoop, hlast]
    rw [if_pos (by omega), if_neg (by omega),
      addDeltas_prevList (by omega) (by unfold SIZE; omega)]
    simp only [pointOf_prevList A e _ coords start (k + 1) hdim, hnext]
    rw [ih (k + 1) (by omega) f (by omega)]

theorem tuples_lt_SIZE {dim start m : Nat} (hdim : 2 ≤ dim)
    (hsz : start + m * dim + dim ≤ SIZE) : m < SIZE := by
  have h : m * 2 ≤ m * dim := Nat.mul_le_mul_left m hdim
  omega

/-- A run whose `m` whole tuples lie in the buffer and whose range ends before
a further tuple: the commands of those tuples, closed on demand. -/
theorem readLinePart_run {D : Type} (A : Arith D) (e : D) (coords lengths : List Int)
    {dim start end_ m : Nat} (closed : Bool) (hdim : 2 ≤ dim)
    (hfit : start + m * dim ≤ coords.length)
    (hlo : start + m * dim ≤ end_) (hhi : end_ < start + m * dim + dim)
    (hsz : start + m * dim + dim ≤ SIZE) :
    readLinePart A coords lengths dim e start end_ closed
      = .ok (closeRun closed (runCommands A e coords dim start m)) := by
  have h := readLinePartLoop_run A e coords hdim hfit hlo hhi hsz m 0 (by omega) SIZE
    (tuples_lt_SIZE hdim hsz) []
  simp only [Nat.zero_mul, Nat.add_zero, prevList_zero] at h
  simp [readLinePart, h, runCommands, List.range_eq_range']

/-- A run whose range asks for a tuple that is not wholly in the buffer ends in
the fatal error, with the index of that tuple's last scalar. -/
theorem readLinePart_fatal {D : Type} (A : Arith D) (e : D) (coords lengths : List Int)
    {dim start end_ m : Nat} (closed : Bool) (hdim : 2 ≤ dim)
    (hfit : start + m * dim ≤ coords.length)
    (hout : coords.length < start + m * dim + dim) (hend : start + m * dim + dim ≤ end_)
    (hsz : start + m * dim + dim ≤ SIZE) :
    readLinePart A coords lengths dim e start end_ closed
      = .error (.lineSegment (start + m * dim + dim - 1) coords.length) := by
  have h := readLinePartLoop_fatal A e coords hdim hfit hout hend hsz m 0 (by omega) SIZE
    (tuples_lt_SIZE hdim hsz) []
  simp only [Nat.zero_mul, Nat.add_zero, prevList_zero] at h
  simp [readLinePart, h]

theorem prevAfter_eq_wrapLL_deltaSum (coords : List Int) (dim d : Nat) :
    ∀ k : Nat, prevAfter coords dim 0 d (k + 1) = wrapLL (deltaSum coords dim d k) := by
  intro k
  induction k with
  | zero => simp [prevAfter, deltaSum]
  | succ k ih =>
    rw [prevAfter, ih, wrapLL_add_left]
    simp [deltaSum, Finset.sum_range_succ]

theorem runCommands_zero_eq {D : Type} (A : Arith D) (e : D) (coords : List Int)
    (dim n : Nat) :
    runCommands A e coords dim 0 n
      = (List.range n).map (fun k =>
          drawAt A e (if k = 0 then Op.VT_MOVETO else Op.VT_LINETO)
            (wrapLL (deltaSum coords dim 0 k)) (wrapLL (deltaSum coords dim 1 k))) := by
  unfold runCommands
  apply List.map_congr_left
  intro k _
  simp only [runCommand, prevAfter_eq_wrapLL_deltaSum]

theorem prevAfter_congr {c1 c2 : List Int} {dim s1 s2 d m : Nat}
    (h : ∀ k, k < m → c1.getD (s1 + k * dim + d) 0 = c2.getD (s2 + k * dim + d) 0) :
    ∀ k, k ≤ m → prevAfter c1 dim s1 d k = prevAfter c2 dim s2 d k := by
  intro k
  induction k with
  | zero => intro _; rfl
  | succ k ih =>
    intro hk
    rw [prevAfter, prevAfter, ih (by omega), h k (by omega)]

theorem runCommands_congr {D : Type} (A : Arith D) (e : D) {c1 c2 : List Int}
    {dim s1 s2 m : Nat}
    (h : ∀ k d, k < m → d < 2 → c1.getD (s1 + k * dim + d) 0 = c2.getD (s2 + k * dim + d) 0) :
    runCommands A e c1 dim s1 m = runCommands A e c2 dim s2 m := by
  unfold runCommands
  apply List.map_congr_left
  intro k hk
  have hk2 : k < m := by simpa using hk
  simp only [runCommand]
  rw [prevAfter_congr (fun j hj => h j 0 hj (by omega)) (k + 1) (by omega),
    prevAfter_congr (fun j hj => h j 1 hj (by omega)) (k + 1) (by omega)]

theorem getD_take_drop (coords : List Int) (here len i : Nat) (hi : i < len) :
    ((coords.drop here).take len).getD i 0 = coords.getD (here + i) 0 := by
  simp [List.getD_eq_getElem?_getD, List.getElem?_take, hi, List.getElem?_drop]

/-- The commands of a run depend on the scalars of its own tuples only: read
from the slice of the run, they are the same. -/
theorem runCommands_slice {D : Type} (A : Arith D) (e : D) (coords : List Int)
    {dim : Nat} (here l : Nat) (hdim : 2 ≤ dim) :
    runCommands A e ((coords.drop here).take (l * dim)) dim 0 l
      = runCommands A e coords dim here l := by
  apply runCommands_congr
  intro k d hk hd
  have h1 : (k + 1) * dim ≤ l * dim := Nat.mul_le_mul_right dim (by omega)
  have h2 : (k + 1) * dim = k * dim + dim := Nat.succ_mul k dim
  rw [Nat.zero_add, getD_take_drop coords here (l * dim) (k * dim + d) (by omega)]
  congr 1
  omega

/-! ## The loop of `readMultiLine` -/

theorem readMultiLineLoop_run {D : Type} (A : Arith D) (e : D) (coords lengths : List Int)
    {dim : Nat} (closed : Bool) (hdim : 2 ≤ dim) (hdimmax : dim < 9223372036854775808)
    (hmax : coords.length < 9223372036854775808) :
    ∀ (ls : List Nat) (here : Nat) (dv : drawvec), here + ls.sum * dim ≤ coords.length →
      readMultiLineLoop A coords lengths dim e closed (ls.map Int.ofNat) here dv
        = .ok (dv ++ multiRuns A e coords dim closed ls here) := by
  intro ls
  induction ls with
  | nil => intro here dv _; simp [readMultiLineLoop, multiRuns]
  | cons l ls ih =>
    intro here dv h
    have hsum : (l + ls.sum) * dim = l * dim + ls.sum * dim := Nat.add_mul _ _ _
    rw [List.sum_cons, hsum] at h
    have hl : l ≤ l * dim := Nat.le_mul_of_pos_right l (by omega)
    have hend : (here + (toSize (Int.ofNat l) * dim) % 18446744073709551616)
        % 18446744073709551616 = here + l * dim := by
      have h0 : toSize (Int.ofNat l) = l := toSize_natCast l (by omega)
      rw [h0]
      omega
    simp only [List.map_cons, readMultiLineLoop, hend]
    rw [readLinePart_run A e coords lengths (m := l) closed hdim (by omega) (by omega)
      (by omega) (by unfold SIZE; omega)]
    simp only []
    rw [ih (here + l * dim) _ (by omega)]
    simp [multiRuns]

theorem concatRuns_ringSlices {D : Type} (A : Arith D) (e : D) (coords lengths : List Int)
    {dim : Nat} (closed : Bool) (hdim : 2 ≤ dim) (hdimmax : dim < 9223372036854775808)
    (hmax : coords.length < 9223372036854775808) :
    ∀ (ls : List Nat) (here : Nat), here + ls.sum * dim ≤ coords.length →
      concatRuns ((ringSlices dim ls (coords.drop here)).map
          (fun s => readLine A s lengths dim e closed))
        = .ok (multiRuns A e coords dim closed ls here) := by
  intro ls
  induction ls with
  | nil => intro here _; simp [ringSlices, concatRuns, multiRuns]
  | cons l ls ih =>
    intro here h
    have hsum : (l + ls.sum) * dim = l * dim + ls.sum * dim := Nat.add_mul _ _ _
    rw [List.sum_cons, hsum] at h
    have hlen : ((coords.drop here).take (l * dim)).length = l * dim := by
      simp only [List.length_take, List.length_drop]
      omega
    have hrun : readLine A ((coords.drop here).take (l * dim)) lengths dim e closed
        = .ok (closeRun closed (runCommands A e coords dim here l)) := by
      rw [readLine, hlen,
        @readLinePart_run D A e _ lengths dim 0 _ l closed hdim (by omega)
          (by omega) (by omega) (by unfold SIZE; omega),
        runCommands_slice A e coords here l hdim]
    simp only [ringSlices, List.map_cons, hrun, concatRuns, List.drop_drop]
    rw [ih (here + l * dim) (by omega)]
    simp [multiRuns]

/-! ## C1: a LineString reconstructs the running sums of its deltas -/

/-- C1 (as amended): for every dimension `dim ≥ 2`, every scale `e` and every
coordinate buffer of exactly `n * dim` scalars (a `std::vector`, so shorter
than `2^63`), `readLine` with `closed = false` returns exactly `n` commands;
command `k` carries `project(s0 / e, s1 / e, 32)` where `s0`, `s1` are the sums
of `coords[j*dim]` and `coords[j*dim+1]` for `j ≤ k` reduced to the signed
64-bit range of the `long long` accumulator; command 0 is a MoveTo and every
later command is a LineTo. -/
theorem readLine_lineString {D : Type} (A : Arith D) (e : D) (coords lengths : List Int)
    (dim n : Nat) (hdim : 2 ≤ dim) (hlen : coords.length = n * dim)
    (hmax : coords.length < 9223372036854775808) :
    readLine A coords lengths dim e false
      = .ok ((List.range n).map (fun k =>
          drawAt A e (if k = 0 then Op.VT_MOVETO else Op.VT_LINETO)
            (wrapLL (deltaSum coords dim 0 k)) (wrapLL (deltaSum coords dim 1 k)))) := by
  rw [← runCommands_zero_eq]
  by_cases hn : n = 0
  · subst hn
    have hnil : coords = [] := List.eq_nil_of_length_eq_zero (by omega)
    subst hnil
    simp [readLine, readLinePart, SIZE, readLinePartLoop, runCommands, closeRun]
  · have hle : dim ≤ n * dim := Nat.le_mul_of_pos_left dim (by omega)
    have h := @readLinePart_run D A e coords lengths dim 0 coords.length n false hdim
      (by omega) (by omega) (by omega)
      (by unfold SIZE; omega)
    simpa [readLine, closeRun] using h

/-- C1, the example of the specification: with the identity projection stub
and scale `10^6`, the deltas `[10,20],[5,-3],[-2,8]` in micro-units give the
points `(10,20),(15,17),(13,25)`. -/
theorem readLine_lineString_witness :
    (2 ≤ 2
      ∧ [10000000, 20000000, 5000000, -3000000, -2000000, (8000000 : Int)].length = 3 * 2
      ∧ [10000000, 20000000, 5000000, -3000000, -2000000, (8000000 : Int)].length
          < 9223372036854775808)
    ∧ readLine stub [10000000, 20000000, 5000000, -3000000, -2000000, 8000000] [] 2 1000000
        false
      = .ok [⟨.VT_MOVETO, 10, 20⟩, ⟨.VT_LINETO, 15, 17⟩, ⟨.VT_LINETO, 13, 25⟩] :=
  ⟨⟨by decide, by decide, by decide⟩,
    (readLine_lineString stub 1000000
      [10000000, 20000000, 5000000, -3000000, -2000000, 8000000] [] 2 3
      (by decide) (by decide) (by decide)).trans (by
        simp [deltaSum, Finset.sum_range_succ, drawAt, wrapLL, stub, List.range_succ])⟩

/-- C1 as stated fails when a running sum leaves the signed 64-bit range: for
the deltas `[2^63 - 1, 0], [1, 0]` the second command does not carry the
projection of the plain sum `2^63`. -/
theorem readLine_lineString_counterexample :
    readLine stub [9223372036854775807, 0, 1, 0] [] 2 1 false
      ≠ .ok ((List.range 2).map (fun k =>
          drawAt stub 1 (if k = 0 then Op.VT_MOVETO else Op.VT_LINETO)
            (deltaSum [9223372036854775807, 0, 1, 0] 2 0 k)
            (deltaSum [9223372036854775807, 0, 1, 0] 2 1 k))) := by
  have h : readLine stub [9223372036854775807, 0, 1, 0] [] 2 1 false
      = .ok [⟨.VT_MOVETO, 9223372036854775807, 0⟩, ⟨.VT_LINETO, -9223372036854775808, 0⟩] := by
    decide
  rw [h]
  simp [deltaSum, Finset.sum_range_succ, drawAt, stub, List.range_succ]

/-! ## C2: MultiLineString -/

/-- C2 (the code at the failing input): the dispatch of `readGeometry` has no
branch for `MULTILINESTRING = 3`, so a MultiLineString decodes to the empty
drawing sequence whatever its buffer and `lengths`, while the LineString with
the same buffer gives the open run; here for the buffer `[1, 2, 3, 4]`. -/
theorem readGeometry_multiLineString_empty :
    (∀ (D : Type) (A : Arith D) (coords lengths : List Int) (dim : Nat) (e : D),
        dispatchGeometry A coords lengths dim e 3 = .ok [])
    ∧ readGeometry stub 2 1 [] [.type 3, .coords [1, 2, 3, 4]] (some 0) = .ok ([], 2)
    ∧ readGeometry stub 2 1 [] [.type 3, .lengths [1, 1], .coords [1, 2, 3, 4]] (some 0)
        = .ok ([], 2)
    ∧ readGeometry stub 2 1 [] [.type 2, .coords [1, 2, 3, 4]] (some 0)
        = .ok ([⟨.VT_MOVETO, 1, 2⟩, ⟨.VT_LINETO, 4, 6⟩], 2) := by
  refine ⟨?_, by decide, by decide, by decide⟩
  intro D A coords lengths dim e
  simp [dispatchGeometry]

/-! ## C3: negative integer values -/

/-- C3 (the code at the failing input): for tag 4 the operand of `-` is
unsigned, so `v = 5` is formatted as `2^64 - 5`, not as `-5`; in general the
string is the decimal form of `(2^64 - v) mod 2^64`, which is `"0"` for
`v = 0`. -/
theorem readValue_neg_int_value :
    (∀ (D : Type) (A : Arith D) (v : Nat) (keys : List String),
        readValue A [.neg_int_value v] keys
          = ⟨.mvt_double,
              toString ((18446744073709551616 - v % 18446744073709551616)
                % 18446744073709551616)⟩)
    ∧ readValue stub [.neg_int_value 5] [] = ⟨.mvt_double, "18446744073709551611"⟩
    ∧ (readValue stub [.neg_int_value 5] []).s ≠ "-5"
    ∧ readValue stub [.neg_int_value 0] [] = ⟨.mvt_double, "0"⟩ := by
  refine ⟨?_, by decide, by decide, by decide⟩
  intro D A v keys
  rfl

/-! ## C4: delta accumulation restarts at every ring -/

/-- C4: for a Polygon with non-empty tuple counts `ls` and a buffer of at
least `ls.sum * dim` scalars, `readMultiLine` with `closed = true` returns, and
returns the in-order concatenation of the closed runs that `readLine` computes
on the consecutive slices of `ls[i] * dim` scalars, each taken on its own: the
accumulators restart from zero at every ring.  (`dim` and the buffer length
are sizes of `std::vector<long long>` objects, so below `2^63`.) -/
theorem readMultiLine_polygon_slices {D : Type} (A : Arith D) (e : D) (coords : List Int)
    (ls : List Nat) (dim : Nat) (hdim : 2 ≤ dim) (hdimmax : dim < 9223372036854775808)
    (hmax : coords.length < 9223372036854775808) (hne : ls ≠ [])
    (hbuf : ls.sum * dim ≤ coords.length) :
    readMultiLine A coords (ls.map Int.ofNat) dim e true
        = concatRuns ((ringSlices dim ls coords).map
            (fun s => readLine A s (ls.map Int.ofNat) dim e true))
      ∧ ∃ dv, readMultiLine A coords (ls.map Int.ofNat) dim e true = .ok dv := by
  have hlen : (ls.map Int.ofNat).length ≠ 0 := by
    cases ls with
    | nil => exact absurd rfl hne
    | cons l ls => simp
  have h1 := readMultiLineLoop_run A e coords (ls.map Int.ofNat) true hdim hdimmax hmax ls 0 []
    (by omega)
  have h2 := concatRuns_ringSlices A e coords (ls.map Int.ofNat) true hdim hdimmax hmax ls 0
    (by omega)
  rw [List.drop_zero] at h2
  rw [readMultiLine, if_neg hlen, h1, h2]
  exact ⟨rfl, _, rfl⟩

/-- C4 at a concrete polygon: two rings of 2 and 1 tuples; the second ring
starts at its own first tuple `(100, 200)`. -/
theorem readMultiLine_polygon_slices_witness :
    (2 ≤ 2 ∧ 2 < 9223372036854775808
      ∧ [1, 2, 3, 4, 100, (200 : Int)].length < 9223372036854775808
      ∧ [2, 1] ≠ ([] : List Nat) ∧ [2, 1].sum * 2 ≤ [1, 2, 3, 4, 100, (200 : Int)].length)
    ∧ readMultiLine stub [1, 2, 3, 4, 100, 200] ([2, 1].map Int.ofNat) 2 1 true
        = concatRuns ((ringSlices 2 [2, 1] [1, 2, 3, 4, 100, 200]).map
            (fun s => readLine stub s ([2, 1].map Int.ofNat) 2 1 true))
    ∧ readMultiLine stub [1, 2, 3, 4, 100, 200] ([2, 1].map Int.ofNat) 2 1 true
        = .ok [⟨.VT_MOVETO, 1, 2⟩, ⟨.VT_LINETO, 4, 6⟩, ⟨.VT_LINETO, 1, 2⟩,
            ⟨.VT_MOVETO, 100, 200⟩, ⟨.VT_LINETO, 100, 200⟩] :=
  ⟨⟨by decide, by decide, by decide, by decide, by decide⟩,
    (readMultiLine_polygon_slices stub 1 [1, 2, 3, 4, 100, 200] [2, 1] 2
      (by decide) (by decide) (by decide) (by decide) (by decide)).1,
    by decide⟩

/-! ## C5: ring closure -/

theorem runCommands_length {D : Type} (A : Arith D) (e : D) (coords : List Int)
    (dim start m : Nat) : (runCommands A e coords dim start m).length = m := by
  simp [runCommands]

theorem closeRun_true_spec (dv : drawvec) (h : 1 ≤ dv.length) :
    ∃ first, dv.head? = some first
      ∧ (closeRun true dv).head? = some first
      ∧ (closeRun true dv).length = dv.length + 1
      ∧ (closeRun true dv).getLast? = some ⟨.VT_LINETO, first.x, first.y⟩ := by
  cases dv with
  | nil => simp at h
  | cons d0 rest =>
    refine ⟨d0, rfl, rfl, by simp [closeRun], ?_⟩
    have h2 : closeRun true (d0 :: rest)
        = (d0 :: rest) ++ [⟨.VT_LINETO, d0.x, d0.y⟩] := rfl
    rw [h2, List.getLast?_append]
    rfl

/-- C5: a closed run (`readLinePart` with `closed = true`) over `n ≥ 1` whole
tuples inside the buffer returns exactly `n + 1` commands, the last one a
LineTo with the `x` and `y` of command 0, for every content of the buffer; a
closed run over zero tuples returns the empty sequence; hence a Polygon with
`lengths = [3]` and 3 tuples yields exactly 4 commands, the last a LineTo back
to the first.  (`dim` and the buffer length are sizes of
`std::vector<long long>` objects, so below `2^63`.) -/
theorem readLinePart_closed_ring {D : Type} (A : Arith D) (e : D) (dim : Nat)
    (hdim : 2 ≤ dim) (hdimmax : dim < 9223372036854775808) :
    (∀ (coords lengths : List Int) (start n : Nat), coords.length < 9223372036854775808 →
        start + n * dim ≤ coords.length → 1 ≤ n →
        ∃ dv first, readLinePart A coords lengths dim e start (start + n * dim) true = .ok dv
          ∧ dv.length = n + 1 ∧ dv.head? = some first
          ∧ dv.getLast? = some ⟨.VT_LINETO, first.x, first.y⟩)
    ∧ (∀ (coords lengths : List Int) (start : Nat), coords.length < 9223372036854775808 →
        start ≤ coords.length →
        readLinePart A coords lengths dim e start (start + 0 * dim) true = .ok [])
    ∧ (∀ (coords : List Int), coords.length < 9223372036854775808 →
        coords.length = 3 * dim →
        ∃ dv first, readMultiLine A coords [3] dim e true = .ok dv
          ∧ dv.length = 4 ∧ dv.head? = some first
          ∧ dv.getLast? = some ⟨.VT_LINETO, first.x, first.y⟩) := by
  refine ⟨?_, ?_, ?_⟩
  · intro coords lengths start n hmax hfit hn
    have hrun := @readLinePart_run D A e coords lengths dim start (start + n * dim) n true
      hdim hfit
      (by omega) (by omega) (by unfold SIZE; omega)
    obtain ⟨first, _, h2, h3, h4⟩ := closeRun_true_spec (runCommands A e coords dim start n)
      (by rw [runCommands_length]; exact hn)
    rw [runCommands_length] at h3
    exact ⟨_, first, hrun, h3, h2, h4⟩
  · intro coords lengths start hmax hfit
    have hrun := @readLinePart_run D A e coords lengths dim start (start + 0 * dim) 0 true
      hdim (by omega) (by omega) (by omega)
      (by unfold SIZE; omega)
    rw [hrun]
    simp [runCommands, closeRun]
  · intro coords hmax hlen
    have hloop := readMultiLineLoop_run A e coords [3] true hdim hdimmax hmax [3] 0 []
      (by simp; omega)
    obtain ⟨first, _, h2, h3, h4⟩ := closeRun_true_spec (runCommands A e coords dim 0 3)
      (by rw [runCommands_length]; omega)
    rw [runCommands_length] at h3
    refine ⟨closeRun true (runCommands A e coords dim 0 3), first, ?_, h3, h2, h4⟩
    have hmap : [3].map Int.ofNat = ([3] : List Int) := rfl
    rw [hmap] at hloop
    simp only [readMultiLine, List.length_singleton]
    rw [if_neg (by omega), hloop]
    simp [multiRuns]

/-- C5 at a concrete ring: the triangle `(0,0), (1,0), (1,1)`, whose data
does not repeat the start point, is closed by a fourth command. -/
theorem readLinePart_closed_ring_witness :
    (2 ≤ 2 ∧ 2 < 9223372036854775808
      ∧ [0, 0, 1, 0, 0, (1 : Int)].length < 9223372036854775808
      ∧ [0, 0, 1, 0, 0, (1 : Int)].length = 3 * 2)
    ∧ (∃ dv first, readMultiLine stub [0, 0, 1, 0, 0, 1] [3] 2 1000000 true = .ok dv
        ∧ dv.length = 4 ∧ dv.head? = some first
        ∧ dv.getLast? = some ⟨.VT_LINETO, first.x, first.y⟩)
    ∧ readMultiLine stub [0, 0, 1, 0, 0, 1] [3] 2 1 true
        = .ok [⟨.VT_MOVETO, 0, 0⟩, ⟨.VT_LINETO, 1, 0⟩, ⟨.VT_LINETO, 1, 1⟩,
            ⟨.VT_LINETO, 0, 0⟩] :=
  ⟨⟨by decide, by decide, by decide, by decide⟩,
    (readLinePart_closed_ring stub 1000000 2 (by decide) (by decide)).2.2
      [0, 0, 1, 0, 0, 1] (by decide) (by decide),
    by decide⟩

/-! ## C6: MultiPolygon -/

theorem drop_eq_cons {α : Type} {l : List α} {n : Nat} {a : α} {t : List α}
    (h : l.drop n = a :: t) : l[n]? = some a ∧ l.drop (n + 1) = t := by
  constructor
  · have h2 := congrArg List.head? h
    rw [List.head?_drop] at h2
    simpa using h2
  · have h2 := congrArg (List.drop 1) h
    rw [List.drop_drop] at h2
    simpa [Nat.add_comm] using h2

theorem drop_eq_append {α : Type} {l : List α} {n : Nat} {a t : List α}
    (h : l.drop n = a ++ t) : l.drop (n + a.length) = t := by
  have h2 := congrArg (List.drop a.length) h
  rw [List.drop_drop, List.drop_left] at h2
  rw [← h2]

theorem readRings_run {D : Type} (A : Arith D) (e : D) (coords lengths : List Int)
    {dim : Nat} (hdim : 2 ≤ dim) (hdimmax : dim < 9223372036854775808)
    (hmax : coords.length < 9223372036854775808) :
    ∀ (rings : List Nat) (n here : Nat) (dv : drawvec) (rest : List Int),
      lengths.drop n = rings.map Int.ofNat ++ rest → here + rings.sum * dim ≤ coords.length →
      readRings A coords lengths dim e rings.length ⟨n, here, dv⟩
        = .ok ⟨n + rings.length, here + rings.sum * dim,
            dv ++ multiRuns A e coords dim true rings here⟩ := by
  intro rings
  induction rings with
  | nil => intro n here dv rest _ _; simp [readRings, multiRuns]
  | cons c cs ih =>
    intro n here dv rest hdrop h
    have hsum : (c + cs.sum) * dim = c * dim + cs.sum * dim := Nat.add_mul _ _ _
    rw [List.sum_cons, hsum] at h
    have hc : c ≤ c * dim := Nat.le_mul_of_pos_right c (by omega)
    have hdrop1 : lengths.drop n = Int.ofNat c :: (cs.map Int.ofNat ++ rest) := hdrop
    obtain ⟨hget, hdrop2⟩ := drop_eq_cons hdrop1
    have hend : (here + (toSize (Int.ofNat c) * dim) % 18446744073709551616)
        % 18446744073709551616 = here + c * dim := by
      have h0 : toSize (Int.ofNat c) = c := toSize_natCast c (by omega)
      rw [h0]
      omega
    simp only [List.length_cons, readRings, hget, hend]
    rw [readLinePart_run A e coords lengths (m := c) true hdim (by omega) (by omega)
      (by omega) (by unfold SIZE; omega)]
    simp only []
    rw [ih (n + 1) (here + c * dim) _ rest hdrop2 (by omega)]
    simp only [multiRuns, List.sum_cons, hsum, List.append_assoc]
    congr 2 <;> omega

theorem multiPolygonLengths_cons_drop (rings : List Nat) (polys : List (List Nat))
    (rest : List Int) :
    (((rings :: polys).map (fun r => Int.ofNat r.length :: r.map Int.ofNat)).flatten ++ rest)
      = Int.ofNat rings.length :: (rings.map Int.ofNat
          ++ ((polys.map (fun r => Int.ofNat r.length :: r.map Int.ofNat)).flatten ++ rest)) := by
  simp

theorem readPolys_run {D : Type} (A : Arith D) (e : D) (coords lengths : List Int)
    {dim : Nat} (hdim : 2 ≤ dim) (hdimmax : dim < 9223372036854775808)
    (hmax : coords.length < 9223372036854775808) :
    ∀ (polys : List (List Nat)) (n off : Nat) (dv : drawvec) (rest : List Int),
      lengths.drop n
        = (polys.map (fun r => Int.ofNat r.length :: r.map Int.ofNat)).flatten ++ rest →
      (∀ rings ∈ polys, rings.length < 2147483648) →
      (off + totalTuples polys) * dim ≤ coords.length →
      readPolys A coords lengths dim e polys.length ⟨n, off * dim, dv⟩
        = .ok ⟨n + polys.length + totalRings polys, (off + totalTuples polys) * dim,
            dv ++ multiPolygonCommands A e coords dim polys off⟩ := by
  intro polys
  induction polys with
  | nil =>
    intro n off dv rest _ _ _
    simp [readPolys, multiPolygonCommands, totalTuples, totalRings]
  | cons rings polys ih =>
    intro n off dv rest hdrop hint h
    have htot : totalTuples (rings :: polys) = rings.sum + totalTuples polys := by
      simp [totalTuples]
    have hrtot : totalRings (rings :: polys) = rings.length + totalRings polys := by
      simp [totalRings]
    have hmul : (off + (rings.sum + totalTuples polys)) * dim
        = off * dim + rings.sum * dim + totalTuples polys * dim := by
      rw [Nat.add_mul, Nat.add_mul, Nat.add_assoc]
    have hmul2 : (off + rings.sum + totalTuples polys) * dim
        = off * dim + rings.sum * dim + totalTuples polys * dim := by
      rw [Nat.add_mul, Nat.add_mul]
    rw [htot, hmul] at h
    rw [multiPolygonLengths_cons_drop] at hdrop
    obtain ⟨hget, hdrop2⟩ := drop_eq_cons hdrop
    have hr : toSize (Int.ofNat rings.length) = rings.length :=
      toSize_natCast _ (by have := hint rings (by simp); omega)
    simp only [List.length_cons, readPolys, hget, hr]
    rw [readRings_run A e coords lengths hdim hdimmax hmax rings (n + 1) (off * dim) dv _
      hdrop2 (by omega)]
    simp only []
    have hoff : off * dim + rings.sum * dim = (off + rings.sum) * dim := by
      rw [Nat.add_mul]
    have hdrop3 := drop_eq_append hdrop2
    rw [List.length_map] at hdrop3
    rw [hoff, ih (n + 1 + rings.length) (off + rings.sum) _ rest hdrop3
      (fun r hr2 => hint r (by simp [hr2])) (by rw [hmul2]; omega)]
    simp only [multiPolygonCommands, htot, hrtot, List.append_assoc, hmul, hmul2]
    congr 2
    omega

theorem countP_closePath_closeRun {D : Type} (A : Arith D) (e : D) (coords : List Int)
    (dim start m : Nat) (closed : Bool) :
    (closeRun closed (runCommands A e coords dim start m)).countP
        (fun c => decide (c.op = Op.VT_CLOSEPATH)) = 0 := by
  have hrun : (runCommands A e coords dim start m).countP
      (fun c => decide (c.op = Op.VT_CLOSEPATH)) = 0 := by
    rw [List.countP_eq_zero]
    intro c hc
    simp only [runCommands, List.mem_map] at hc
    obtain ⟨k, _, rfl⟩ := hc
    by_cases hk : k = 0 <;> simp [runCommand, drawAt, hk]
  cases closed with
  | false =>
    cases hdv : runCommands A e coords dim start m <;> simp [closeRun, hdv] at hrun ⊢
    exact hrun
  | true =>
    cases hdv : runCommands A e coords dim start m with
    | nil => simp [closeRun]
    | cons d0 rest =>
      rw [hdv] at hrun
      have h2 : closeRun true (d0 :: rest)
          = (d0 :: rest) ++ [⟨.VT_LINETO, d0.x, d0.y⟩] := rfl
      rw [h2, List.countP_append, hrun]
      simp

theorem countP_closePath_multiRuns {D : Type} (A : Arith D) (e : D) (coords : List Int)
    (dim : Nat) (closed : Bool) :
    ∀ (ls : List Nat) (here : Nat),
      (multiRuns A e coords dim closed ls here).countP
        (fun c => decide (c.op = Op.VT_CLOSEPATH)) = 0 := by
  intro ls
  induction ls with
  | nil => intro here; simp [multiRuns]
  | cons l ls ih =>
    intro here
    rw [multiRuns, List.countP_append, countP_closePath_closeRun, ih]

theorem countP_closePath_multiPolygonCommands {D : Type} (A : Arith D) (e : D)
    (coords : List Int) (dim : Nat) :
    ∀ (polys : List (List Nat)) (off : Nat),
      (multiPolygonCommands A e coords dim polys off).countP
        (fun c => decide (c.op = Op.VT_CLOSEPATH)) = polys.length := by
  intro polys
  induction polys with
  | nil => intro off; simp [multiPolygonCommands]
  | cons rings polys ih =>
    intro off
    rw [multiPolygonCommands, List.countP_append, List.countP_append,
      countP_closePath_multiRuns, ih]
    simp
    omega

/-- C6: for a well-formed MultiPolygon `lengths` array (the number of polygons,
then for each polygon its ring count followed by that many ring tuple-counts;
the counts are `int` values) and a buffer of exactly
`(sum of all ring tuple-counts) * dim` scalars, `readMultiPolygon` returns,
polygon by polygon in order, the closed runs of the polygon's rings followed by
one ClosePath, each ring read from the tuple offset that is the sum of the
counts of all earlier rings; the result holds exactly one ClosePath per
polygon.  (`dim` and the buffer length are sizes of `std::vector<long long>`
objects, so below `2^63`.) -/
theorem readMultiPolygon_wellFormed {D : Type} (A : Arith D) (e : D) (coords : List Int)
    (polys : List (List Nat)) (dim : Nat) (hdim : 2 ≤ dim)
    (hdimmax : dim < 9223372036854775808) (hmax : coords.length < 9223372036854775808)
    (hpolys : polys.length < 2147483648)
    (hrings : ∀ rings ∈ polys, rings.length < 2147483648)
    (hbuf : coords.length = totalTuples polys * dim) :
    readMultiPolygon A coords (multiPolygonLengths polys) dim e
        = .ok (multiPolygonCommands A e coords dim polys 0)
      ∧ (multiPolygonCommands A e coords dim polys 0).countP
          (fun c => decide (c.op = Op.VT_CLOSEPATH)) = polys.length := by
  refine ⟨?_, countP_closePath_multiPolygonCommands A e coords dim polys 0⟩
  have hP : toSize (Int.ofNat polys.length) = polys.length := toSize_natCast _ (by omega)
  have h := readPolys_run A e coords (multiPolygonLengths polys) hdim hdimmax hmax polys 1 0 []
    [] (by simp [multiPolygonLengths]) hrings (by rw [Nat.zero_add]; omega)
  rw [Nat.zero_mul] at h
  simp only [readMultiPolygon, multiPolygonLengths, hP]
  simp only [multiPolygonLengths] at h
  rw [h]
  simp

/-- C6, the example of the specification: `lengths = [2, 1,4, 2,3,5]` over 12
tuples of dimension 2 gives 17 commands with ClosePath at positions 5 and 16,
and the rings start at the tuples 0, 4 and 7 of the buffer. -/
theorem readMultiPolygon_wellFormed_witness :
    (2 ≤ 2 ∧ 2 < 9223372036854775808
      ∧ [1, 2, 3, 4, 5, 6, 7, 8, 9, 10, 11, 12, 13, 14, 15, 16, 17, 18, 19, 20, 21, 22, 23,
          (24 : Int)].length < 9223372036854775808
      ∧ [[4], [3, 5]].length < 2147483648
      ∧ (∀ rings ∈ [[4], [3, 5]], rings.length < 2147483648)
      ∧ [1, 2, 3, 4, 5, 6, 7, 8, 9, 10, 11, 12, 13, 14, 15, 16, 17, 18, 19, 20, 21, 22, 23,
          (24 : Int)].length = totalTuples [[4], [3, 5]] * 2)
    ∧ multiPolygonLengths [[4], [3, 5]] = [2, 1, 4, 2, 3, 5]
    ∧ readMultiPolygon stub
          [1, 2, 3, 4, 5, 6, 7, 8, 9, 10, 11, 12, 13, 14, 15, 16, 17, 18, 19, 20, 21, 22, 23, 24]
          (multiPolygonLengths [[4], [3, 5]]) 2 1
        = .ok (multiPolygonCommands stub 1
            [1, 2, 3, 4, 5, 6, 7, 8, 9, 10, 11, 12, 13, 14, 15, 16, 17, 18, 19, 20, 21, 22, 23,
              24] 2 [[4], [3, 5]] 0)
    ∧ readMultiPolygon stub
          [1, 2, 3, 4, 5, 6, 7, 8, 9, 10, 11, 12, 13, 14, 15, 16, 17, 18, 19, 20, 21, 22, 23, 24]
          [2, 1, 4, 2, 3, 5] 2 1
        = .ok [⟨.VT_MOVETO, 1, 2⟩, ⟨.VT_LINETO, 4, 6⟩, ⟨.VT_LINETO, 9, 12⟩,
            ⟨.VT_LINETO, 16, 20⟩, ⟨.VT_LINETO, 1, 2⟩, ⟨.VT_CLOSEPATH, 0, 0⟩,
            ⟨.VT_MOVETO, 9, 10⟩, ⟨.VT_LINETO, 20, 22⟩, ⟨.VT_LINETO, 33, 36⟩,
            ⟨.VT_LINETO, 9, 10⟩,
            ⟨.VT_MOVETO, 15, 16⟩, ⟨.VT_LINETO, 32, 34⟩, ⟨.VT_LINETO, 51, 54⟩,
            ⟨.VT_LINETO, 72, 76⟩, ⟨.VT_LINETO, 95, 100⟩, ⟨.VT_LINETO, 15, 16⟩,
            ⟨.VT_CLOSEPATH, 0, 0⟩] :=
  ⟨⟨by decide, by decide, by decide, by decide, by decide, by decide⟩, by decide,
    (readMultiPolygon_wellFormed stub 1
      [1, 2, 3, 4, 5, 6, 7, 8, 9, 10, 11, 12, 13, 14, 15, 16, 17, 18, 19, 20, 21, 22, 23, 24]
      [[4], [3, 5]] 2 (by decide) (by decide) (by decide) (by decide) (by decide)
      (by decide)).1,
    by decide⟩

/-! ## C7: runs that leave the buffer -/

theorem readLinePart_empty {D : Type} (A : Arith D) (e : D) (coords lengths : List Int)
    {dim start end_ : Nat} (closed : Bool) (hdim : 1 ≤ dim) (hsz : start + dim ≤ SIZE)
    (h : end_ < start + dim) :
    readLinePart A coords lengths dim e start end_ closed = .ok [] := by
  unfold SIZE at hsz
  have hlast : (start + dim + 18446744073709551615) % 18446744073709551616
      = start + dim - 1 := by omega
  rw [readLinePart, show SIZE = 18446744073709551615 + 1 from rfl, readLinePartLoop]
  simp only [hlast]
  rw [if_neg (by omega)]
  cases closed <;> rfl

/-- A run that starts inside the buffer and whose range ends behind a tuple
that is not wholly in the buffer ends in the fatal error. -/
theorem readLinePart_fatal_of_end {D : Type} (A : Arith D) (e : D) (coords lengths : List Int)
    {dim start end_ : Nat} (closed : Bool) (hdim : 2 ≤ dim)
    (hdimmax : dim < 9223372036854775808) (hmax : coords.length < 9223372036854775808)
    (hstart : start ≤ coords.length) (hend : coords.length + dim ≤ end_) :
    ∃ idx, readLinePart A coords lengths dim e start end_ closed
      = .error (.lineSegment idx coords.length) := by
  have h1 : (coords.length - start) / dim * dim ≤ coords.length - start :=
    Nat.div_mul_le_self _ _
  have h2 : coords.length - start < (coords.length - start) / dim * dim + dim :=
    Nat.lt_div_mul_add (by omega)
  exact ⟨_, readLinePart_fatal A e coords lengths (m := (coords.length - start) / dim) closed
    hdim (by omega) (by omega) (by omega) (by unfold SIZE; omega)⟩

theorem sum_take_succ_cons (l : Int) (ls : List Int) (i : Nat) :
    ((l :: ls).take (i + 1 + 1)).sum = l + (ls.take (i + 1)).sum := by
  simp

theorem readMultiLineLoop_fatal {D : Type} (A : Arith D) (e : D) (coords lengths : List Int)
    {dim : Nat} (closed : Bool) (hdim : 2 ≤ dim) (hdim32 : dim < 4294967296)
    (hmax : coords.length < 4611686018427387904) :
    ∀ (ls : List Int) (here : Nat) (dv : drawvec),
      (∀ l ∈ ls, -2147483648 ≤ l ∧ l < 2147483648) → here ≤ coords.length →
      (∃ i, i < ls.length
        ∧ (coords.length : Int) < (here : Int) + (ls.take (i + 1)).sum * (dim : Int)) →
      ∃ idx, readMultiLineLoop A coords lengths dim e closed ls here dv
        = .error (.lineSegment idx coords.length) := by
  intro ls
  induction ls with
  | nil =>
    intro here dv _ _ h
    obtain ⟨i, hi, _⟩ := h
    simp at hi
  | cons l ls ih =>
    intro here dv hint hhere h
    obtain ⟨i, hi, hgt⟩ := h
    have hl := hint l (by simp)
    have hint2 : ∀ l2 ∈ ls, -2147483648 ≤ l2 ∧ l2 < 2147483648 :=
      fun l2 h2 => hint l2 (by simp [h2])
    cases l with
    | ofNat n =>
      rw [Int.ofNat_eq_coe] at hl hgt
      have hn : n < 2147483648 := by omega
      have hnd : n * dim ≤ 2147483648 * 4294967296 := Nat.mul_le_mul (by omega) (by omega)
      have h0 : toSize (Int.ofNat n) = n := toSize_natCast n (by omega)
      have hend : (here + (toSize (Int.ofNat n) * dim) % 18446744073709551616)
          % 18446744073709551616 = here + n * dim := by
        rw [h0]
        omega
      simp only [readMultiLineLoop, hend]
      by_cases hfit : here + n * dim ≤ coords.length
      · rw [readLinePart_run A e coords lengths (m := n) closed hdim hfit (by omega)
          (by omega) (by unfold SIZE; omega)]
        simp only []
        apply ih (here + n * dim) _ hint2 hfit
        cases i with
        | zero =>
          simp only [Nat.zero_add, List.take_succ_cons, List.take_zero, List.sum_cons,
            List.sum_nil, add_zero] at hgt
          have hc : ((n * dim : Nat) : Int) = (n : Int) * (dim : Int) := by push_cast; rfl
          omega
        | succ i =>
          refine ⟨i, by simpa using hi, ?_⟩
          rw [sum_take_succ_cons, add_mul] at hgt
          have hc : ((n * dim : Nat) : Int) = (n : Int) * (dim : Int) := by push_cast; rfl
          omega
      · have hlt : (coords.length - here) / dim < n := by
          by_contra hcon
          have h1 : n * dim ≤ (coords.length - here) / dim * dim :=
            Nat.mul_le_mul_right dim (by omega)
          have h2 : (coords.length - here) / dim * dim ≤ coords.length - here :=
            Nat.div_mul_le_self _ _
          omega
        have h1 : ((coords.length - here) / dim + 1) * dim ≤ n * dim :=
          Nat.mul_le_mul_right dim (by omega)
        have h2 : ((coords.length - here) / dim + 1) * dim
            = (coords.length - here) / dim * dim + dim := Nat.succ_mul _ _
        have h3 : (coords.length - here) / dim * dim ≤ coords.length - here :=
          Nat.div_mul_le_self _ _
        have h4 : coords.length - here < (coords.length - here) / dim * dim + dim :=
          Nat.lt_div_mul_add (by omega)
        rw [readLinePart_fatal A e coords lengths (m := (coords.length - here) / dim) closed
          hdim (by omega) (by omega) (by omega) (by unfold SIZE; omega)]
        exact ⟨_, rfl⟩
    | negSucc n =>
      rw [Int.negSucc_eq] at hl hgt
      have hn : n + 1 ≤ 2147483648 := by omega
      have hnd : (n + 1) * dim ≤ 2147483648 * 4294967295 :=
        Nat.mul_le_mul hn (by omega)
      have hpos : dim ≤ (n + 1) * dim := Nat.le_mul_of_pos_left dim (by omega)
      have h0 : toSize (Int.negSucc n) = 18446744073709551616 - (n + 1) := by
        unfold toSize
        rw [Int.negSucc_eq]
        omega
      have hprod : (toSize (Int.negSucc n) * dim) % 18446744073709551616
          = 18446744073709551616 - (n + 1) * dim := by
        have hsplit : (18446744073709551616 - (n + 1)) * dim
            = (18446744073709551616 - (n + 1) * dim) + 18446744073709551616 * (dim - 1) := by
          have e1 : (18446744073709551616 - (n + 1)) * dim
              = 18446744073709551616 * dim - (n + 1) * dim := Nat.sub_mul _ _ _
          have e2 : 18446744073709551616 * (dim - 1)
              = 18446744073709551616 * dim - 18446744073709551616 := by
            rw [Nat.mul_sub, Nat.mul_one]
          have e3 : 18446744073709551616 * 2 ≤ 18446744073709551616 * dim :=
            Nat.mul_le_mul_left _ hdim
          omega
        rw [h0, hsplit, Nat.add_mul_mod_self_left]
        apply Nat.mod_eq_of_lt
        omega
      by_cases hback : (n + 1) * dim ≤ here
      · have hend : (here + (toSize (Int.negSucc n) * dim) % 18446744073709551616)
            % 18446744073709551616 = here - (n + 1) * dim := by
          rw [hprod]
          omega
        simp only [readMultiLineLoop, hend]
        rw [readLinePart_empty A e coords lengths closed (by omega) (by unfold SIZE; omega)
          (by omega)]
        simp only []
        apply ih (here - (n + 1) * dim) _ hint2 (by omega)
        cases i with
        | zero =>
          simp only [Nat.zero_add, List.take_succ_cons, List.take_zero, List.sum_cons,
            List.sum_nil, add_zero] at hgt
          have hc : (((n + 1) * dim : Nat) : Int) = ((n : Int) + 1) * (dim : Int) := by
            push_cast; rfl
          have hneg : -((n : Int) + 1) * (dim : Int) = -(((n : Int) + 1) * (dim : Int)) :=
            neg_mul _ _
          omega
        | succ i =>
          refine ⟨i, by simpa using hi, ?_⟩
          rw [sum_take_succ_cons, add_mul] at hgt
          have hc : (((n + 1) * dim : Nat) : Int) = ((n : Int) + 1) * (dim : Int) := by
            push_cast; rfl
          have hneg : -((n : Int) + 1) * (dim : Int) = -(((n : Int) + 1) * (dim : Int)) :=
            neg_mul _ _
          omega
      · have hend : (here + (toSize (Int.negSucc n) * dim) % 18446744073709551616)
            % 18446744073709551616 = 18446744073709551616 + here - (n + 1) * dim := by
          rw [hprod]
          omega
        simp only [readMultiLineLoop, hend]
        obtain ⟨idx, hidx⟩ := @readLinePart_fatal_of_end D A e coords lengths dim here
          (18446744073709551616 + here - (n + 1) * dim) closed hdim
          (by omega) (by omega) hhere (by omega)
        rw [hidx]
        exact ⟨_, rfl⟩

/-- Where the guard of `readLinePart` does its work: for `int` counts and
`2 ≤ dim < 2^32`, so that `lengths[i] * dim` stays within 64 bits, a run range
that passes the end of the buffer, `(lengths[0] + ... + lengths[i]) * dim >
coords.size()` on the stored `int` values, ends `readMultiLine` in the fatal
line-segment error.  A count of `2^31` or more is stored as a negative `int`
and is not covered by this condition. -/
theorem readMultiLine_polygon_fatal {D : Type} (A : Arith D) (e : D)
    (coords lengths : List Int) (dim : Nat) (hdim : 2 ≤ dim) (hdim32 : dim < 4294967296)
    (hmax : coords.length < 4611686018427387904)
    (hint : ∀ l ∈ lengths, -2147483648 ≤ l ∧ l < 2147483648) (hne : lengths ≠ [])
    (hrange : ∃ i, i < lengths.length
      ∧ (coords.length : Int) < (lengths.take (i + 1)).sum * (dim : Int)) :
    ∃ idx, readMultiLine A coords lengths dim e true
          = .error (.lineSegment idx coords.length)
      ∧ dispatchGeometry A coords lengths dim e 4
          = .error (.lineSegment idx coords.length) := by
  have hlen : lengths.length ≠ 0 := by
    cases lengths with
    | nil => exact absurd rfl hne
    | cons l ls => simp
  obtain ⟨i, hi, hgt⟩ := hrange
  obtain ⟨idx, hidx⟩ := readMultiLineLoop_fatal A e coords lengths true hdim hdim32 hmax
    lengths 0 [] hint (by omega) ⟨i, hi, by simpa using hgt⟩
  refine ⟨idx, ?_, ?_⟩
  · rw [readMultiLine, if_neg hlen, hidx]
  · have hd : dispatchGeometry A coords lengths dim e 4
        = readMultiLine A coords lengths dim e true := by
      simp [dispatchGeometry]
    rw [hd, readMultiLine, if_neg hlen, hidx]

/-- C7 (the code at the failing input): the Polygon message with the counts
`lengths = [2, 4294967295]`, the buffer `[1, 2, 3, 4]` and `dim = 2`, whose
second run passes the end of the buffer, `(2 + 4294967295) * 2 > 4`.  The
second count is stored in the `int` vector as `-1`, so `here + lengths[1] * dim`
wraps to `2`, below `here = 4`: the loop of `readLinePart` is not entered, its
guard is never evaluated, and `readGeometry` returns the first ring alone,
without an error.  With the count 5 in place of 4294967295 the guard fires. -/
theorem readGeometry_polygon_truncated :
    [1, 2, 3, (4 : Int)].length < (2 + 4294967295) * 2
    ∧ [2, 4294967295].map toInt32 = [2, -1]
    ∧ (4 + (toSize (-1) * 2) % 18446744073709551616) % 18446744073709551616 = 2
    ∧ readGeometry stub 2 1 [] [.type 4, .lengths [2, 4294967295], .coords [1, 2, 3, 4]]
          (some 0)
        = .ok ([⟨.VT_MOVETO, 1, 2⟩, ⟨.VT_LINETO, 4, 6⟩, ⟨.VT_LINETO, 1, 2⟩], 3)
    ∧ readMultiLine stub [1, 2, 3, 4] [2, -1] 2 1 true
        = .ok [⟨.VT_MOVETO, 1, 2⟩, ⟨.VT_LINETO, 4, 6⟩, ⟨.VT_LINETO, 1, 2⟩]
    ∧ readGeometry stub 2 1 [] [.type 4, .lengths [2, 5], .coords [1, 2, 3, 4]] (some 0)
        = .error (.lineSegment 5 4) :=
  ⟨by decide, by decide, by decide, by decide, by decide, by decide⟩

/-! ## C8, C9: property resolution -/

theorem readFeatureFields_tables {D : Type} (A : Arith D) (dim : Nat) (e : D)
    (keys : List String) :
    ∀ (pbf : List (FeatureField D)) (st0 st : FeatureState),
      readFeatureFields A dim e keys pbf st0 = .ok st →
      st.properties = st0.properties ++ propertyArray pbf
        ∧ st.values = st0.values ++ valueTable A keys pbf := by
  intro pbf
  induction pbf with
  | nil =>
    intro st0 st h
    simp only [readFeatureFields, Except.ok.injEq] at h
    subst h
    simp [propertyArray, valueTable]
  | cons f rest ih =>
    intro st0 st h
    cases f with
    | geometry g =>
      simp only [readFeatureFields] at h
      cases hg : readGeometry A dim e keys g (some st0.type) with
      | error err => rw [hg] at h; exact absurd h (by simp)
      | ok r =>
        rw [hg] at h
        have := ih _ st h
        simpa [propertyArray, valueTable] using this
    | id s =>
      simp only [readFeatureFields] at h
      simpa [propertyArray, valueTable] using ih _ st h
    | int_id v =>
      simp only [readFeatureFields] at h
      simpa [propertyArray, valueTable] using ih _ st h
    | values v =>
      simp only [readFeatureFields] at h
      simpa [propertyArray, valueTable] using ih _ st h
    | properties xs =>
      simp only [readFeatureFields] at h
      simpa [propertyArray, valueTable] using ih _ st h
    | other tag =>
      simp only [readFeatureFields] at h
      simpa [propertyArray, valueTable] using ih _ st h

theorem resolveProperties_ok (keys : List String) (values : List serial_val) :
    ∀ (pairs : List (Nat × Nat)) (acc : List String × List serial_val),
      (∀ p ∈ pairs, p.1 < keys.length ∧ p.2 < values.length) →
      resolveProperties keys values (pairArray pairs) acc
        = .ok (acc.1 ++ pairs.map (fun p => keys.getD p.1 ""),
            acc.2 ++ pairs.map (fun p => values.getD p.2 ⟨.mvt_null, "null"⟩)) := by
  intro pairs
  induction pairs with
  | nil => intro acc _; simp [pairArray, resolveProperties]
  | cons p rest ih =>
    intro acc h
    obtain ⟨k, v⟩ := p
    have hp := h (k, v) (by simp)
    have hk : keys[k]? = some keys[k] := List.getElem?_eq_getElem hp.1
    have hv : values[v]? = some values[v] := List.getElem?_eq_getElem hp.2
    simp only [pairArray, resolveProperties, hk, hv]
    rw [ih _ (fun q hq => h q (by simp [hq]))]
    simp [List.getD_eq_getElem?_getD, hk, hv]

theorem readFeature_of_fields_ok {D : Type} (A : Arith D) (pbf : List (FeatureField D))
    (dim : Nat) (e : D) (keys : List String) (sst : serialization_state) (layer : Int)
    (layername : String) (st : FeatureState)
    (hscan : readFeatureFields A dim e keys pbf featureInit = .ok st) :
    readFeature A pbf dim e keys sst layer layername
      = match resolveProperties keys (valueTable A keys pbf) (propertyArray pbf) ([], []) with
        | .error err => ⟨sst, some err⟩
        | .ok kv =>
          ⟨serialize_feature sst
            { layer := layer, layername := layername, segment := 0, has_id := st.has_id,
              id := st.id, has_tippecanoe_minzoom := false, has_tippecanoe_maxzoom := false,
              feature_minzoom := 0, seq := sst.layer_seq sst.calls, geometry := st.dv,
              t := st.type, full_keys := kv.1, full_values := kv.2, m := kv.2.length },
            none⟩ := by
  obtain ⟨hp, hv⟩ := readFeatureFields_tables A dim e keys pbf featureInit st hscan
  simp only [featureInit, List.nil_append] at hp hv
  simp only [readFeature, hscan, hp, hv]

theorem readFeature_of_fields_error {D : Type} (A : Arith D) (pbf : List (FeatureField D))
    (dim : Nat) (e : D) (keys : List String) (sst : serialization_state) (layer : Int)
    (layername : String) (err : Abort)
    (hscan : readFeatureFields A dim e keys pbf featureInit = .error err) :
    readFeature A pbf dim e keys sst layer layername = ⟨sst, some err⟩ := by
  rw [readFeature, hscan]

/-- C8: for a feature message whose packed property array is
`[k_0, v_0, ..., k_(m-1), v_(m-1)]` with every `k_i < keys.size()` and every
`v_i` below the size of the feature's own value table (its value sub-messages
in order of appearance): when the fields of the message are read without a
fatal error, exactly one feature is handed to the sink; and the feature handed
to the sink has `full_keys = [keys[k_0], ...]`,
`full_values = [values[v_0], ...]` in that order and `m` equal to the number
of pairs. -/
theorem readFeature_properties {D : Type} (A : Arith D) (pbf : List (FeatureField D))
    (dim : Nat) (e : D) (keys : List String) (sst : serialization_state) (layer : Int)
    (layername : String) (pairs : List (Nat × Nat))
    (harr : propertyArray pbf = pairArray pairs)
    (hbound : ∀ p ∈ pairs, p.1 < keys.length ∧ p.2 < (valueTable A keys pbf).length) :
    (∀ st, readFeatureFields A dim e keys pbf featureInit = .ok st →
        (readFeature A pbf dim e keys sst layer layername).abort = none
        ∧ ∃ sf, (readFeature A pbf dim e keys sst layer layername).sst.calls = sst.calls ++ [sf])
    ∧ (∀ sf, (readFeature A pbf dim e keys sst layer layername).sst.calls = sst.calls ++ [sf] →
        sf.full_keys = pairs.map (fun p => keys.getD p.1 "")
        ∧ sf.full_values
            = pairs.map (fun p => (valueTable A keys pbf).getD p.2 ⟨.mvt_null, "null"⟩)
        ∧ sf.m = pairs.length) := by
  have hres := resolveProperties_ok keys (valueTable A keys pbf) pairs ([], []) hbound
  rw [← harr] at hres
  constructor
  · intro st hscan
    rw [readFeature_of_fields_ok A pbf dim e keys sst layer layername st hscan, hres]
    exact ⟨rfl, _, rfl⟩
  · intro sf hsf
    cases hscan : readFeatureFields A dim e keys pbf featureInit with
    | error err =>
      rw [readFeature_of_fields_error A pbf dim e keys sst layer layername err hscan] at hsf
      have := congrArg List.length hsf
      simp at this
    | ok st =>
      rw [readFeature_of_fields_ok A pbf dim e keys sst layer layername st hscan, hres] at hsf
      simp only [serialize_feature, List.append_cancel_left_eq, List.cons.injEq,
        and_true] at hsf
      subst hsf
      simp

/-- C8 at a concrete feature: keys `["a", "b"]`, values `"x"` and `7`,
property array `[1, 0, 0, 1]`. -/
theorem readFeature_properties_witness :
    (propertyArray featureTwoProperties = pairArray [(1, 0), (0, 1)]
      ∧ ∀ p ∈ [((1 : Nat), (0 : Nat)), (0, 1)], p.1 < ["a", "b"].length
          ∧ p.2 < (valueTable stub ["a", "b"] featureTwoProperties).length)
    ∧ (∀ sf, (readFeature stub featureTwoProperties 2 1000000 ["a", "b"] sst0 0
            "layer").sst.calls = sst0.calls ++ [sf] →
        sf.full_keys = ["b", "a"]
        ∧ sf.full_values = [⟨.mvt_string, "x"⟩, ⟨.mvt_double, "7"⟩]
        ∧ sf.m = 2)
    ∧ ((readFeature stub featureTwoProperties 2 1000000 ["a", "b"] sst0 0
            "layer").sst.calls.map (fun sf => (sf.full_keys, sf.full_values, sf.m)))
        = [(["b", "a"], [⟨.mvt_string, "x"⟩, ⟨.mvt_double, "7"⟩], 2)] :=
  ⟨⟨by decide, by decide⟩,
    fun sf hsf =>
      (readFeature_properties stub featureTwoProperties 2 1000000 ["a", "b"] sst0 0 "layer"
        [(1, 0), (0, 1)] (by decide) (by decide)).2 sf hsf,
    by decide⟩

theorem resolveProperties_error_iff (keys : List String) (values : List serial_val) :
    ∀ (props : List Nat) (acc : List String × List serial_val),
      ((∃ i n, resolveProperties keys values props acc = .error (.outOfBoundsKey i n)
            ∨ resolveProperties keys values props acc = .error (.outOfBoundsValue i n))
          ↔ ∃ p ∈ pairsOf props, keys.length ≤ p.1 ∨ values.length ≤ p.2)
        ∧ ((∃ kv, resolveProperties keys values props acc = .ok kv)
          ↔ ∀ p ∈ pairsOf props, p.1 < keys.length ∧ p.2 < values.length) := by
  intro props
  induction props using pairsOf.induct with
  | case1 k v rest ih =>
    intro acc
    by_cases hk : k < keys.length
    · by_cases hv : v < values.length
      · have hk2 : keys[k]? = some keys[k] := List.getElem?_eq_getElem hk
        have hv2 : values[v]? = some values[v] := List.getElem?_eq_getElem hv
        have hstep : resolveProperties keys values (k :: v :: rest) acc
            = resolveProperties keys values rest (acc.1 ++ [keys[k]], acc.2 ++ [values[v]]) := by
          simp only [resolveProperties, hk2, hv2]
        rw [hstep]
        obtain ⟨ih1, ih2⟩ := ih (acc.1 ++ [keys[k]], acc.2 ++ [values[v]])
        constructor
        · rw [ih1]
          simp only [pairsOf, List.mem_cons, exists_eq_or_imp]
          constructor
          · intro h; exact Or.inr h
          · intro h
            rcases h with h | h
            · omega
            · exact h
        · rw [ih2]
          simp only [pairsOf, List.mem_cons, forall_eq_or_imp]
          constructor
          · intro h; exact ⟨⟨hk, hv⟩, h⟩
          · intro h; exact h.2
      · have hk2 : keys[k]? = some keys[k] := List.getElem?_eq_getElem hk
        have hv2 : values[v]? = none := List.getElem?_eq_none (by omega)
        have hstep : resolveProperties keys values (k :: v :: rest) acc
            = .error (.outOfBoundsValue v values.length) := by
          simp only [resolveProperties, hk2, hv2]
        rw [hstep]
        constructor
        · constructor
          · intro _
            exact ⟨(k, v), by simp [pairsOf], Or.inr (by simpa using hv)⟩
          · intro _
            exact ⟨v, values.length, Or.inr rfl⟩
        · constructor
          · intro h
            obtain ⟨kv, hkv⟩ := h
            exact absurd hkv (by simp)
          · intro h
            have := h (k, v) (by simp [pairsOf])
            omega
    · have hk2 : keys[k]? = none := List.getElem?_eq_none (by omega)
      have hstep : resolveProperties keys values (k :: v :: rest) acc
          = .error (.outOfBoundsKey k keys.length) := by
        simp only [resolveProperties, hk2]
      rw [hstep]
      constructor
      · constructor
        · intro _
          exact ⟨(k, v), by simp [pairsOf], Or.inl (by simpa using hk)⟩
        · intro _
          exact ⟨k, keys.length, Or.inl rfl⟩
      · constructor
        · intro h
          obtain ⟨kv, hkv⟩ := h
          exact absurd hkv (by simp)
        · intro h
          have := h (k, v) (by simp [pairsOf])
          omega
  | case2 x hx =>
    intro acc
    have hres : resolveProperties keys values x acc = .ok acc := by
      match x, hx with
      | [], _ => rfl
      | [_], _ => rfl
      | k :: v :: rest, hx => exact absurd rfl (hx k v rest)
    have hpairs : pairsOf x = [] := by
      match x, hx with
      | [], _ => rfl
      | [_], _ => rfl
      | k :: v :: rest, hx => exact absurd rfl (hx k v rest)
    rw [hres, hpairs]
    simp

/-- C9 (as amended): when the fields of a feature message are read without a
fatal error (in particular its geometry decodes), `readFeature` ends in the
fatal out-of-bounds error if and only if some property-index pair `(k, v)` of
the feature has `k ≥ keys.size()` or `v ≥ values.size()`; and whenever
`readFeature` ends in a fatal error, the sink is not called for that
feature. -/
theorem readFeature_outOfBounds {D : Type} (A : Arith D) (pbf : List (FeatureField D))
    (dim : Nat) (e : D) (keys : List String) (sst : serialization_state) (layer : Int)
    (layername : String) :
    (∀ st, readFeatureFields A dim e keys pbf featureInit = .ok st →
        ((∃ i n, (readFeature A pbf dim e keys sst layer layername).abort
              = some (.outOfBoundsKey i n)
            ∨ (readFeature A pbf dim e keys sst layer layername).abort
              = some (.outOfBoundsValue i n))
          ↔ ∃ p ∈ pairsOf (propertyArray pbf),
              keys.length ≤ p.1 ∨ (valueTable A keys pbf).length ≤ p.2))
    ∧ ((readFeature A pbf dim e keys sst layer layername).abort ≠ none →
        (readFeature A pbf dim e keys sst layer layername).sst.calls = sst.calls) := by
  constructor
  · intro st hscan
    rw [readFeature_of_fields_ok A pbf dim e keys sst layer layername st hscan]
    obtain ⟨h1, _⟩ := resolveProperties_error_iff keys (valueTable A keys pbf)
      (propertyArray pbf) ([], [])
    rw [← h1]
    cases hres : resolveProperties keys (valueTable A keys pbf) (propertyArray pbf) ([], [])
      with
    | error err => simp
    | ok kv => simp
  · intro habort
    cases hscan : readFeatureFields A dim e keys pbf featureInit with
    | error err =>
      rw [readFeature_of_fields_error A pbf dim e keys sst layer layername err hscan]
    | ok st =>
      rw [readFeature_of_fields_ok A pbf dim e keys sst layer layername st hscan] at habort ⊢
      cases hres : resolveProperties keys (valueTable A keys pbf) (propertyArray pbf) ([], [])
        with
      | error err => rfl
      | ok kv =>
        rw [hres] at habort
        exact absurd rfl habort

/-- C9 at a concrete feature: the pair `(0, 0)` names value 0 of an empty
value table; the out-of-bounds error is reached and the sink is not called. -/
theorem readFeature_outOfBounds_witness :
    readFeatureFields stub 2 1000000 ["a"] featureMissingValue featureInit
        = .ok ⟨[], 0, false, [], [0, 0], 0⟩
    ∧ ((∃ i n, (readFeature stub featureMissingValue 2 1000000 ["a"] sst0 0 "layer").abort
              = some (.outOfBoundsKey i n)
            ∨ (readFeature stub featureMissingValue 2 1000000 ["a"] sst0 0 "layer").abort
              = some (.outOfBoundsValue i n))
          ↔ ∃ p ∈ pairsOf (propertyArray featureMissingValue),
              ["a"].length ≤ p.1 ∨ (valueTable stub ["a"] featureMissingValue).length ≤ p.2)
    ∧ (readFeature stub featureMissingValue 2 1000000 ["a"] sst0 0 "layer").abort
        = some (.outOfBoundsValue 0 0)
    ∧ (readFeature stub featureMissingValue 2 1000000 ["a"] sst0 0 "layer").sst.calls = [] :=
  ⟨by decide,
    (readFeature_outOfBounds stub featureMissingValue 2 1000000 ["a"] sst0 0 "layer").1
      ⟨[], 0, false, [], [0, 0], 0⟩ (by decide),
    by decide, by decide⟩

/-- C9 as stated fails when the geometry of the feature is malformed: the pair
`(0, 0)` is out of bounds for the empty key dictionary, yet `readFeature` ends
in the line-segment error of the geometry, which is decoded first. -/
theorem readFeature_outOfBounds_counterexample :
    (∃ p ∈ pairsOf (propertyArray featureBadGeometry),
        ([] : List String).length ≤ p.1
          ∨ (valueTable stub [] featureBadGeometry).length ≤ p.2)
    ∧ (readFeature stub featureBadGeometry 2 1000000 [] sst0 0 "layer").abort
        = some (.lineSegment 1 0)
    ∧ ¬ ∃ i n, (readFeature stub featureBadGeometry 2 1000000 [] sst0 0 "layer").abort
              = some (.outOfBoundsKey i n)
            ∨ (readFeature stub featureBadGeometry 2 1000000 [] sst0 0 "layer").abort
              = some (.outOfBoundsValue i n) := by
  have h : (readFeature stub featureBadGeometry 2 1000000 [] sst0 0 "layer").abort
      = some (.lineSegment 1 0) := by decide
  refine ⟨⟨(0, 0), by decide, by decide⟩, h, ?_⟩
  rw [h]
  simp

/-! ## C10: the dimension check -/

theorem parseFields_append {D : Type} (A : Arith D) (layer : Int) (layername : String)
    (rest : List (DataField D)) :
    ∀ (pre : List (DataField D)) (st0 st : DataState D),
      parseFields A layer layername pre st0 = (st, none) →
      parseFields A layer layername (pre ++ rest) st0 = parseFields A layer layername rest st := by
  intro pre
  induction pre with
  | nil =>
    intro st0 st h
    simp only [parseFields, Prod.mk.injEq, and_true] at h
    subst h
    rfl
  | cons f pre ih =>
    intro st0 st h
    cases f with
    | keys s =>
      simp only [parseFields, List.cons_append] at h ⊢
      exact ih _ st h
    | dimensions v =>
      simp only [parseFields, List.cons_append] at h ⊢
      by_cases hv : toSize v < 2
      · rw [if_pos hv] at h
        simp at h
      · rw [if_neg hv] at h ⊢
        exact ih _ st h
    | precision v =>
      simp only [parseFields, List.cons_append] at h ⊢
      exact ih _ st h
    | feature_collection fc =>
      simp only [parseFields, List.cons_append] at h ⊢
      rcases hr : readFeatureCollection A st0.dim st0.e st0.keys layer layername fc st0.sst
        with ⟨sst2, _ | err⟩
      · rw [hr] at h
        exact ih _ st h
      · rw [hr] at h
        simp at h
    | feature f =>
      simp only [parseFields, List.cons_append] at h ⊢
      rcases hr : readFeature A f st0.dim st0.e st0.keys st0.sst layer layername
        with ⟨sst2, _ | err⟩
      · rw [hr] at h
        exact ih _ st h
      · rw [hr] at h
        simp at h
    | geometry g =>
      simp only [parseFields, List.cons_append] at h ⊢
      cases hr : readGeometry A st0.dim st0.e st0.keys g none with
      | error err =>
        rw [hr] at h
        simp at h
      | ok r =>
        rw [hr] at h
        exact ih _ st h
    | other tag =>
      simp only [parseFields, List.cons_append] at h ⊢
      exact ih _ st h

theorem parseFields_dim {D : Type} (A : Arith D) (layer : Int) (layername : String) :
    ∀ (fields : List (DataField D)) (st0 st : DataState D),
      parseFields A layer layername fields st0 = (st, none) → 2 ≤ st0.dim → 2 ≤ st.dim := by
  intro fields
  induction fields with
  | nil =>
    intro st0 st h hdim
    simp only [parseFields, Prod.mk.injEq, and_true] at h
    subst h
    exact hdim
  | cons f fields ih =>
    intro st0 st h hdim
    cases f with
    | keys s =>
      simp only [parseFields] at h
      exact ih _ st h hdim
    | dimensions v =>
      simp only [parseFields] at h
      by_cases hv : toSize v < 2
      · rw [if_pos hv] at h
        simp at h
      · rw [if_neg hv] at h
        exact ih _ st h (by simp only; omega)
    | precision v =>
      simp only [parseFields] at h
      exact ih _ st h hdim
    | feature_collection fc =>
      simp only [parseFields] at h
      rcases hr : readFeatureCollection A st0.dim st0.e st0.keys layer layername fc st0.sst
        with ⟨sst2, _ | err⟩
      · rw [hr] at h
        exact ih _ st h hdim
      · rw [hr] at h
        simp at h
    | feature f =>
      simp only [parseFields] at h
      rcases hr : readFeature A f st0.dim st0.e st0.keys st0.sst layer layername
        with ⟨sst2, _ | err⟩
      · rw [hr] at h
        exact ih _ st h hdim
      · rw [hr] at h
        simp at h
    | geometry g =>
      simp only [parseFields] at h
      cases hr : readGeometry A st0.dim st0.e st0.keys g none with
      | error err =>
        rw [hr] at h
        simp at h
      | ok r =>
        rw [hr] at h
        exact ih _ st h hdim
    | other tag =>
      simp only [parseFields] at h
      exact ih _ st h hdim

/-- C10 (the code at the failing input): a document whose dimension field
holds `-1`.  The value is stored in the `size_t` variable `dim` before the test
`dim < 2`, so `dim` is `2^64 - 1`, the dimension error is not raised and the
document is read to its end: a geometry after the field is decoded and a
feature after it is handed to the sink.  The dimensions 0 and 1 do end in the
dimension error. -/
theorem parse_geobuf_negative_dimension :
    (-1 : Int) < 2
    ∧ toSize (-1) = 18446744073709551615
    ∧ (parse_geobuf stub sst0 [.dimensions (-1)] 0 "layer").abort = none
    ∧ (parse_geobuf stub sst0 [.dimensions (-1), .geometry [.type 0, .coords [3, 4]]] 0
          "layer").abort = none
    ∧ (parse_geobuf stub sst0 [.dimensions (-1), .feature featurePoint] 0 "layer").abort = none
    ∧ (parse_geobuf stub sst0 [.dimensions (-1), .feature featurePoint] 0
          "layer").sst.calls.map (fun sf => (sf.geometry, sf.t))
        = [([⟨.VT_MOVETO, 3, 4⟩], 1)]
    ∧ (parse_geobuf stub sst0 [.dimensions 0] 0 "layer").abort = some (.fewerDimensions 0)
    ∧ (parse_geobuf stub sst0 [.dimensions 1] 0 "layer").abort = some (.fewerDimensions 1) :=
  ⟨by decide, by decide, by decide, by decide, by decide, by decide, by decide, by decide⟩

/-! ## C11, C16: calls to the sink -/

theorem readFeature_cases {D : Type} (A : Arith D) (pbf : List (FeatureField D))
    (dim : Nat) (e : D) (keys : List String) (sst : serialization_state) (layer : Int)
    (layername : String) :
    (∃ err, readFeature A pbf dim e keys sst layer layername = ⟨sst, some err⟩)
      ∨ ∃ sf, readFeature A pbf dim e keys sst layer layername
          = ⟨serialize_feature sst sf, none⟩ := by
  unfold readFeature
  cases readFeatureFields A dim e keys pbf featureInit with
  | error err => exact Or.inl ⟨err, rfl⟩
  | ok st =>
    simp only []
    cases resolveProperties keys st.values st.properties ([], []) with
    | error err => exact Or.inl ⟨err, rfl⟩
    | ok kv => exact Or.inr ⟨_, rfl⟩

theorem readFeatureCollection_calls {D : Type} (A : Arith D) (dim : Nat) (e : D)
    (keys : List String) (layer : Int) (layername : String) :
    ∀ (fc : List (CollectionField D)) (sst : serialization_state),
      (readFeatureCollection A dim e keys layer layername fc sst).abort = none →
      ∃ sfs, (readFeatureCollection A dim e keys layer layername fc sst).sst.calls
            = sst.calls ++ sfs
        ∧ List.Forall₂ (emittedFrom A layer layername) (collectionFeatures fc) sfs := by
  intro fc
  induction fc with
  | nil => intro sst _; exact ⟨[], by simp [readFeatureCollection], by simp [collectionFeatures]⟩
  | cons f rest ih =>
    intro sst h
    cases f with
    | other tag =>
      simp only [readFeatureCollection, collectionFeatures] at h ⊢
      exact ih sst h
    | features f =>
      rcases readFeature_cases A f dim e keys sst layer layername with ⟨err, hr⟩ | ⟨sf, hr⟩
      · simp only [readFeatureCollection, hr] at h
        simp at h
      · simp only [readFeatureCollection, hr, collectionFeatures] at h ⊢
        obtain ⟨sfs, h1, h2⟩ := ih _ h
        refine ⟨sf :: sfs, ?_, List.Forall₂.cons ⟨dim, e, keys, sst, hr⟩ h2⟩
        rw [h1]
        simp [serialize_feature]

theorem parseFields_calls {D : Type} (A : Arith D) (layer : Int) (layername : String) :
    ∀ (fields : List (DataField D)) (st0 st : DataState D),
      parseFields A layer layername fields st0 = (st, none) →
      ∃ sfs, st.sst.calls = st0.sst.calls ++ sfs
        ∧ List.Forall₂ (emittedFrom A layer layername) (featureMessages fields) sfs := by
  intro fields
  induction fields with
  | nil =>
    intro st0 st h
    simp only [parseFields, Prod.mk.injEq, and_true] at h
    subst h
    exact ⟨[], by simp, by simp [featureMessages]⟩
  | cons f fields ih =>
    intro st0 st h
    cases f with
    | keys s =>
      simp only [parseFields] at h
      simpa [featureMessages] using ih _ st h
    | dimensions v =>
      simp only [parseFields] at h
      by_cases hv : toSize v < 2
      · rw [if_pos hv] at h
        simp at h
      · rw [if_neg hv] at h
        simpa [featureMessages] using ih _ st h
    | precision v =>
      simp only [parseFields] at h
      simpa [featureMessages] using ih _ st h
    | feature_collection fc =>
      simp only [parseFields] at h
      rcases hr : readFeatureCollection A st0.dim st0.e st0.keys layer layername fc st0.sst
        with ⟨sst2, _ | err⟩
      · rw [hr] at h
        obtain ⟨sfs1, h1, h2⟩ := readFeatureCollection_calls A st0.dim st0.e st0.keys layer
          layername fc st0.sst (by rw [hr])
        rw [hr] at h1
        obtain ⟨sfs2, h3, h4⟩ := ih _ st h
        refine ⟨sfs1 ++ sfs2, ?_, ?_⟩
        · simp only at h1
          rw [h3]
          simp only [h1, List.append_assoc]
        · simp only [featureMessages]
          exact List.rel_append h2 h4
      · rw [hr] at h
        simp at h
    | feature f =>
      simp only [parseFields] at h
      rcases readFeature_cases A f st0.dim st0.e st0.keys st0.sst layer layername
        with ⟨err, hr⟩ | ⟨sf, hr⟩
      · rw [hr] at h
        simp at h
      · rw [hr] at h
        obtain ⟨sfs, h1, h2⟩ := ih _ st h
        refine ⟨sf :: sfs, ?_, ?_⟩
        · rw [h1]
          simp [serialize_feature]
        · simp only [featureMessages]
          exact List.Forall₂.cons ⟨_, _, _, _, hr⟩ h2
    | geometry g =>
      simp only [parseFields] at h
      cases hr : readGeometry A st0.dim st0.e st0.keys g none with
      | error err =>
        rw [hr] at h
        simp at h
      | ok r =>
        rw [hr] at h
        simpa [featureMessages] using ih _ st h
    | other tag =>
      simp only [parseFields] at h
      simpa [featureMessages] using ih _ st h

theorem parseFields_sst_of_noFeatures {D : Type} (A : Arith D) (layer : Int)
    (layername : String) :
    ∀ (fields : List (DataField D)) (st0 : DataState D),
      (∀ f ∈ fields, f.carriesFeatures = false) →
      (parseFields A layer layername fields st0).1.sst.calls = st0.sst.calls := by
  intro fields
  induction fields with
  | nil => intro st0 _; rfl
  | cons f fields ih =>
    intro st0 h
    have hf := h f (by simp)
    have hrest : ∀ f2 ∈ fields, f2.carriesFeatures = false := fun f2 h2 => h f2 (by simp [h2])
    cases f with
    | keys s => simpa [parseFields] using ih _ hrest
    | dimensions v =>
      simp only [parseFields]
      by_cases hv : toSize v < 2
      · rw [if_pos hv]
      · rw [if_neg hv]
        exact ih _ hrest
    | precision v => simpa [parseFields] using ih _ hrest
    | feature_collection fc => simp [DataField.carriesFeatures] at hf
    | feature f => simp [DataField.carriesFeatures] at hf
    | geometry g =>
      simp only [parseFields]
      cases hr : readGeometry A st0.dim st0.e st0.keys g none with
      | error err => rfl
      | ok r => exact ih _ hrest
    | other tag => simpa [parseFields] using ih _ hrest

theorem parseFields_sst_before_dimension {D : Type} (A : Arith D) (layer : Int)
    (layername : String) (v : Int) (post : List (DataField D)) (hv : toSize v < 2) :
    ∀ (pre : List (DataField D)) (st0 : DataState D),
      (∀ f ∈ pre, f.carriesFeatures = false) →
      (parseFields A layer layername (pre ++ .dimensions v :: post) st0).1.sst.calls
        = st0.sst.calls := by
  intro pre
  induction pre with
  | nil =>
    intro st0 _
    simp only [List.nil_append, parseFields]
    rw [if_pos hv]
  | cons f pre ih =>
    intro st0 h
    have hf := h f (by simp)
    have hrest : ∀ f2 ∈ pre, f2.carriesFeatures = false := fun f2 h2 => h f2 (by simp [h2])
    cases f with
    | keys s => simpa [parseFields] using ih _ hrest
    | dimensions w =>
      simp only [parseFields, List.cons_append]
      by_cases hw : toSize w < 2
      · rw [if_pos hw]
      · rw [if_neg hw]
        exact ih _ hrest
    | precision w => simpa [parseFields] using ih _ hrest
    | feature_collection fc => simp [DataField.carriesFeatures] at hf
    | feature f => simp [DataField.carriesFeatures] at hf
    | geometry g =>
      simp only [parseFields, List.cons_append]
      cases hr : readGeometry A st0.dim st0.e st0.keys g none with
      | error err => rfl
      | ok r => exact ih _ hrest
    | other tag => simpa [parseFields] using ih _ hrest

/-- C11 (as amended): for a document with a top-level dimension field of value
0 or 1: when the top-level fields before it are read without a fatal error,
`parse_geobuf` aborts with the dimension error at that field, the sink has
received exactly the features of the fields before it, in order, and none of a
later field; and when no feature or feature collection stands before the
dimension field, no feature is handed to the sink. -/
theorem parse_geobuf_dimension_features {D : Type} (A : Arith D) (sst : serialization_state)
    (pre post : List (DataField D)) (v : Int) (layer : Int) (layername : String)
    (hv : 0 ≤ v ∧ v < 2) :
    (∀ st, parseFields A layer layername pre (dataInit A sst) = (st, none) →
        (parse_geobuf A sst (pre ++ .dimensions v :: post) layer layername).abort
            = some (.fewerDimensions (toSize v))
          ∧ ∃ sfs,
              (parse_geobuf A sst (pre ++ .dimensions v :: post) layer layername).sst.calls
                = sst.calls ++ sfs
              ∧ List.Forall₂ (emittedFrom A layer layername) (featureMessages pre) sfs)
    ∧ ((∀ f ∈ pre, f.carriesFeatures = false) →
        (parse_geobuf A sst (pre ++ .dimensions v :: post) layer layername).sst.calls
          = sst.calls) := by
  have hsize : toSize v < 2 := by
    unfold toSize
    omega
  constructor
  · intro st hpre
    obtain ⟨sfs, h1, h2⟩ := parseFields_calls A layer layername pre _ st hpre
    rw [parse_geobuf, parseFields_append A layer layername _ pre _ st hpre]
    simp only [parseFields]
    rw [if_pos hsize]
    exact ⟨rfl, sfs, h1, h2⟩
  · intro hno
    exact parseFields_sst_before_dimension A layer layername v post hsize pre _ hno

/-- C11 at a concrete document: a key, dimension 1, then a feature. -/
theorem parse_geobuf_dimension_features_witness :
    ((0 : Int) ≤ 1 ∧ (1 : Int) < 2)
    ∧ (∀ f ∈ ([.keys "a"] : List (DataField Int)), f.carriesFeatures = false)
    ∧ (parse_geobuf stub sst0 ([.keys "a"] ++ .dimensions 1 :: [.feature featureOnlyId]) 0
          "layer").sst.calls = sst0.calls
    ∧ (parse_geobuf stub sst0 ([.keys "a"] ++ .dimensions 1 :: [.feature featureOnlyId]) 0
          "layer").abort = some (.fewerDimensions 1) :=
  ⟨by decide, by decide,
    (parse_geobuf_dimension_features stub sst0 [.keys "a"] [.feature featureOnlyId] 1 0
      "layer" (by decide)).2 (by decide),
    by decide⟩

/-- C11 as stated fails when a feature stands before the dimension field: it
has been handed to the sink when the dimension error ends the process. -/
theorem parse_geobuf_dimension_features_counterexample :
    (parse_geobuf stub sst0 [.feature featureOnlyId, .dimensions 0] 0 "layer").abort
        = some (.fewerDimensions 0)
    ∧ (parse_geobuf stub sst0 [.feature featureOnlyId, .dimensions 0] 0
          "layer").sst.calls.length = 1
    ∧ (parse_geobuf stub sst0 [.feature featureOnlyId, .dimensions 0] 0 "layer").sst.calls
        ≠ sst0.calls :=
  ⟨by decide, by decide, by decide⟩

/-- C16: for a document that decodes without a fatal error, the sink is
called exactly once per feature sub-message, in document order: the calls made
are, one for one and in order, the features decoded from the top-level single
features (tag 5) and from the features (tag 1) of the feature collections
(tag 4); and a document without such fields, for instance one whose only
payload is a bare geometry (tag 6), causes no sink call. -/
theorem parse_geobuf_sink_calls {D : Type} (A : Arith D) (sst : serialization_state)
    (src : List (DataField D)) (layer : Int) (layername : String) :
    ((parse_geobuf A sst src layer layername).abort = none →
        ∃ sfs, (parse_geobuf A sst src layer layername).sst.calls = sst.calls ++ sfs
          ∧ sfs.length = (featureMessages src).length
          ∧ List.Forall₂ (emittedFrom A layer layername) (featureMessages src) sfs)
    ∧ ((∀ f ∈ src, f.carriesFeatures = false) →
        (parse_geobuf A sst src layer layername).sst.calls = sst.calls) := by
  constructor
  · intro h
    rcases hp : parseFields A layer layername src (dataInit A sst) with ⟨st, abort⟩
    simp only [parse_geobuf, hp] at h ⊢
    subst h
    obtain ⟨sfs, h1, h2⟩ := parseFields_calls A layer layername src _ st hp
    exact ⟨sfs, h1, h2.length_eq.symm, h2⟩
  · intro hno
    exact parseFields_sst_of_noFeatures A layer layername src _ hno

/-- C16 at concrete documents: three feature sub-messages give three calls, in
document order (ids 7, none, 7); a bare geometry gives none. -/
theorem parse_geobuf_sink_calls_witness :
    (parse_geobuf stub sst0 documentThreeFeatures 0 "layer").abort = none
    ∧ (∃ sfs, (parse_geobuf stub sst0 documentThreeFeatures 0 "layer").sst.calls
          = sst0.calls ++ sfs
        ∧ sfs.length = (featureMessages documentThreeFeatures).length
        ∧ List.Forall₂ (emittedFrom stub 0 "layer") (featureMessages documentThreeFeatures) sfs)
    ∧ (featureMessages documentThreeFeatures).length = 3
    ∧ (parse_geobuf stub sst0 documentThreeFeatures 0 "layer").sst.calls.map
          (fun sf => (sf.has_id, sf.seq, sf.m))
        = [(true, 0, 0), (false, 1, 2), (true, 2, 0)]
    ∧ (parse_geobuf stub sst0 [.geometry [.type 2, .coords [1, 2]]] 0 "layer").sst.calls = []
    ∧ (parse_geobuf stub sst0 [.geometry [.type 2, .coords [1, 2]]] 0 "layer").abort = none :=
  ⟨by decide,
    (parse_geobuf_sink_calls stub sst0 documentThreeFeatures 0 "layer").1 (by decide),
    by decide, by decide, by decide, by decide⟩

/-! ## C12: the collapsed geometry class -/

theorem readGeometryFields_type {D : Type} (A : Arith D) (dim : Nat) (e : D)
    (keys : List String) :
    ∀ (pbf : List GeometryField) (st st2 : GeometryState),
      readGeometryFields A dim e keys pbf st = .ok st2 →
      st2.type = declaredType pbf st.type := by
  intro pbf
  induction pbf with
  | nil =>
    intro st st2 h
    simp only [readGeometryFields, Except.ok.injEq] at h
    subst h
    rfl
  | cons f rest ih =>
    intro st st2 h
    rw [readGeometryFields] at h
    cases f with
    | type t =>
      simp only [readGeometryField] at h
      simpa [declaredType] using ih _ st2 h
    | lengths xs =>
      simp only [readGeometryField] at h
      simpa [declaredType] using ih _ st2 h
    | coords xs =>
      simp only [readGeometryField] at h
      simpa [declaredType] using ih _ st2 h
    | geometries g =>
      simp only [readGeometryField] at h
      cases hg : finishGeometry A dim e (readGeometryFields A dim e keys g ⟨[], [], none⟩) with
      | error err => rw [hg] at h; simp at h
      | ok r =>
        rw [hg] at h
        simpa [declaredType] using ih _ st2 h
    | other tag =>
      simp only [readGeometryField] at h
      simpa [declaredType] using ih _ st2 h

theorem readGeometry_type {D : Type} (A : Arith D) (dim : Nat) (e : D) (keys : List String)
    (pbf : List GeometryField) (type0 : Option Int) (dv : drawvec) (c : Int)
    (h : readGeometry A dim e keys pbf type0 = .ok (dv, c)) :
    ∃ t, declaredType pbf type0 = some t ∧ c = Int.tdiv t 2 + 1 := by
  unfold readGeometry at h
  cases hf : readGeometryFields A dim e keys pbf ⟨[], [], type0⟩ with
  | error err => rw [hf] at h; simp [finishGeometry] at h
  | ok st =>
    have ht := readGeometryFields_type A dim e keys pbf _ st hf
    rw [hf] at h
    simp only [finishGeometry] at h
    cases hty : st.type with
    | none => rw [hty] at h; simp at h
    | some t =>
      rw [hty] at h
      simp only at h
      cases hd : dispatchGeometry A st.coords st.lengths dim e t with
      | error err => rw [hd] at h; simp at h
      | ok dv2 =>
        rw [hd] at h
        simp only [Except.ok.injEq, Prod.mk.injEq] at h
        refine ⟨t, ?_, h.2.symm⟩
        rw [← ht, hty]

theorem declaredType_some (t : Int) :
    ∀ (pbf : List GeometryField) (t0 : Option Int), declaredType pbf none = some t →
      declaredType pbf t0 = some t := by
  intro pbf
  induction pbf with
  | nil => intro t0 h; simp [declaredType] at h
  | cons f rest ih =>
    intro t0 h
    cases f with
    | type t1 => simpa [declaredType] using h
    | lengths xs => simpa [declaredType] using ih t0 (by simpa [declaredType] using h)
    | coords xs => simpa [declaredType] using ih t0 (by simpa [declaredType] using h)
    | geometries g => simpa [declaredType] using ih t0 (by simpa [declaredType] using h)
    | other tag => simpa [declaredType] using ih t0 (by simpa [declaredType] using h)

theorem readFeatureFields_append {D : Type} (A : Arith D) (dim : Nat) (e : D)
    (keys : List String) (rest : List (FeatureField D)) :
    ∀ (pre : List (FeatureField D)) (st0 st : FeatureState),
      readFeatureFields A dim e keys (pre ++ rest) st0 = .ok st →
      ∃ st1, readFeatureFields A dim e keys pre st0 = .ok st1
        ∧ readFeatureFields A dim e keys rest st1 = .ok st := by
  intro pre
  induction pre with
  | nil => intro st0 st h; exact ⟨st0, rfl, h⟩
  | cons f pre ih =>
    intro st0 st h
    cases f with
    | geometry g =>
      simp only [List.cons_append, readFeatureFields] at h ⊢
      cases hg : readGeometry A dim e keys g (some st0.type) with
      | error err => rw [hg] at h; simp at h
      | ok r =>
        rw [hg] at h
        exact ih _ st h
    | id s =>
      simp only [List.cons_append, readFeatureFields] at h ⊢
      exact ih _ st h
    | int_id v =>
      simp only [List.cons_append, readFeatureFields] at h ⊢
      exact ih _ st h
    | values v =>
      simp only [List.cons_append, readFeatureFields] at h ⊢
      exact ih _ st h
    | properties xs =>
      simp only [List.cons_append, readFeatureFields] at h ⊢
      exact ih _ st h
    | other tag =>
      simp only [List.cons_append, readFeatureFields] at h ⊢
      exact ih _ st h

theorem readFeatureFields_type_of_noGeometry {D : Type} (A : Arith D) (dim : Nat) (e : D)
    (keys : List String) :
    ∀ (pbf : List (FeatureField D)) (st0 st : FeatureState),
      (∀ f ∈ pbf, f.isGeometry = false) →
      readFeatureFields A dim e keys pbf st0 = .ok st → st.type = st0.type := by
  intro pbf
  induction pbf with
  | nil =>
    intro st0 st _ h
    simp only [readFeatureFields, Except.ok.injEq] at h
    subst h
    rfl
  | cons f pbf ih =>
    intro st0 st hno h
    have hf := hno f (by simp)
    have hrest : ∀ f2 ∈ pbf, f2.isGeometry = false := fun f2 h2 => hno f2 (by simp [h2])
    cases f with
    | geometry g => simp [FeatureField.isGeometry] at hf
    | id s =>
      simp only [readFeatureFields] at h
      exact ih _ st hrest h
    | int_id v =>
      simp only [readFeatureFields] at h
      simpa using ih _ st hrest h
    | values v =>
      simp only [readFeatureFields] at h
      simpa using ih _ st hrest h
    | properties xs =>
      simp only [readFeatureFields] at h
      simpa using ih _ st hrest h
    | other tag =>
      simp only [readFeatureFields] at h
      exact ih _ st hrest h

theorem readFeature_emitted {D : Type} (A : Arith D) (pbf : List (FeatureField D))
    (dim : Nat) (e : D) (keys : List String) (sst : serialization_state) (layer : Int)
    (layername : String) (sf : serial_feature)
    (h : (readFeature A pbf dim e keys sst layer layername).sst.calls = sst.calls ++ [sf]) :
    ∃ st, readFeatureFields A dim e keys pbf featureInit = .ok st
      ∧ sf.t = st.type ∧ sf.has_id = st.has_id ∧ sf.id = st.id ∧ sf.geometry = st.dv := by
  cases hscan : readFeatureFields A dim e keys pbf featureInit with
  | error err =>
    rw [readFeature_of_fields_error A pbf dim e keys sst layer layername err hscan] at h
    have := congrArg List.length h
    simp at this
  | ok st =>
    rw [readFeature_of_fields_ok A pbf dim e keys sst layer layername st hscan] at h
    cases hres : resolveProperties keys (valueTable A keys pbf) (propertyArray pbf) ([], [])
      with
    | error err =>
      rw [hres] at h
      have := congrArg List.length h
      simp at this
    | ok kv =>
      rw [hres] at h
      simp only [serialize_feature, List.append_cancel_left_eq, List.cons.injEq,
        and_true] at h
      subst h
      exact ⟨st, rfl, rfl, rfl, rfl, rfl⟩

theorem tdiv_class (t c : Int) (h : c = Int.tdiv t 2 + 1) :
    ((t = 0 ∨ t = 1) → c = 1) ∧ ((t = 2 ∨ t = 3) → c = 2) ∧ ((t = 4 ∨ t = 5) → c = 3) := by
  refine ⟨?_, ?_, ?_⟩ <;> intro ht <;> rcases ht with ht | ht <;> subst ht <;> subst h <;> rfl

/-- C12: when `readGeometry` returns for a geometry message with declared type
`t`, it leaves the type code at 1 for Point (0) and MultiPoint (1), at 2 for
LineString (2) and MultiLineString (3), and at 3 for Polygon (4) and
MultiPolygon (5); and the feature that `readFeature` hands to the sink has
that collapsed code of its (last) geometry as `t`. -/
theorem readGeometry_collapsed_class {D : Type} (A : Arith D) (dim : Nat) (e : D)
    (keys : List String) :
    (∀ (pbf : List GeometryField) (type0 : Option Int) (t : Int) (dv : drawvec) (c : Int),
        declaredType pbf type0 = some t →
        readGeometry A dim e keys pbf type0 = .ok (dv, c) →
        ((t = 0 ∨ t = 1) → c = 1) ∧ ((t = 2 ∨ t = 3) → c = 2) ∧ ((t = 4 ∨ t = 5) → c = 3))
    ∧ (∀ (pre post : List (FeatureField D)) (g : List GeometryField) (t : Int)
        (sst : serialization_state) (layer : Int) (layername : String) (sf : serial_feature),
        declaredType g none = some t →
        (∀ f ∈ post, f.isGeometry = false) →
        (readFeature A (pre ++ .geometry g :: post) dim e keys sst layer layername).sst.calls
          = sst.calls ++ [sf] →
        ((t = 0 ∨ t = 1) → sf.t = 1) ∧ ((t = 2 ∨ t = 3) → sf.t = 2)
          ∧ ((t = 4 ∨ t = 5) → sf.t = 3)) := by
  constructor
  · intro pbf type0 t dv c ht h
    obtain ⟨t2, h1, h2⟩ := readGeometry_type A dim e keys pbf type0 dv c h
    rw [ht] at h1
    simp only [Option.some.injEq] at h1
    subst h1
    exact tdiv_class t c h2
  · intro pre post g t sst layer layername sf ht hno hcalls
    obtain ⟨st, hscan, hsft, _⟩ := readFeature_emitted A _ dim e keys sst layer layername sf
      hcalls
    obtain ⟨st1, _, h2⟩ := readFeatureFields_append A dim e keys _ pre _ st hscan
    simp only [readFeatureFields] at h2
    cases hg : readGeometry A dim e keys g (some st1.type) with
    | error err => rw [hg] at h2; simp at h2
    | ok r =>
      rw [hg] at h2
      simp only at h2
      have htype := readFeatureFields_type_of_noGeometry A dim e keys post _ st hno h2
      simp only at htype
      obtain ⟨t2, h3, h4⟩ := readGeometry_type A dim e keys g (some st1.type) r.1 r.2 hg
      rw [declaredType_some t g _ ht] at h3
      simp only [Option.some.injEq] at h3
      subst h3
      rw [hsft, htype]
      exact tdiv_class t r.2 h4

/-- C12 at concrete messages: the six declared types over the buffer
`[1, 2, 3, 4]`, and a feature with a Polygon. -/
theorem readGeometry_collapsed_class_witness :
    (declaredType [.type 5, .coords [1, 2, 3, 4]] (some 0) = some 5
      ∧ readGeometry stub 2 1 [] [.type 5, .coords [1, 2, 3, 4]] (some 0)
          = .ok ([⟨.VT_MOVETO, 1, 2⟩, ⟨.VT_LINETO, 4, 6⟩, ⟨.VT_LINETO, 1, 2⟩], 3))
    ∧ (((5 : Int) = 0 ∨ (5 : Int) = 1) → (3 : Int) = 1)
    ∧ (((5 : Int) = 2 ∨ (5 : Int) = 3) → (3 : Int) = 2)
    ∧ (((5 : Int) = 4 ∨ (5 : Int) = 5) → (3 : Int) = 3)
    ∧ [0, 1, 2, 3, 4, 5].map (fun t =>
          (readGeometry stub 2 1 [] [.type t, .coords [1, 2, 3, 4]] none).toOption.map
            (fun r => r.2))
        = [some 1, some 1, some 2, some 2, some 3, some 3]
    ∧ (readFeature stub featurePolygon 2 1 [] sst0 0 "layer").sst.calls.map (fun sf => sf.t)
        = [3] := by
  have h := (readGeometry_collapsed_class stub 2 1 []).1 [.type 5, .coords [1, 2, 3, 4]]
    (some 0) 5 [⟨.VT_MOVETO, 1, 2⟩, ⟨.VT_LINETO, 4, 6⟩, ⟨.VT_LINETO, 1, 2⟩] 3 (by decide)
    (by decide)
  exact ⟨⟨by decide, by decide⟩, h.1, h.2.1, h.2.2, by decide, by decide⟩

/-! ## C13: unknown fields of a value message -/

theorem foldl_readValueField_filter {D : Type} (A : Arith D) :
    ∀ (pbf : List (ValueField D)) (sv : serial_val),
      (pbf.filter (fun f => f.recognised)).foldl (readValueField A) sv
        = pbf.foldl (readValueField A) sv := by
  intro pbf
  induction pbf with
  | nil => intro sv; rfl
  | cons f rest ih =>
    intro sv
    rw [List.filter_cons]
    cases hrec : f.recognised with
    | true =>
      rw [if_pos rfl, List.foldl_cons, List.foldl_cons, ih]
    | false =>
      have hskip : readValueField A sv f = sv := by
        cases f <;> first | rfl | simp [ValueField.recognised] at hrec
      rw [if_neg (by simp), List.foldl_cons, hskip, ih]

theorem foldl_readValueField_unrecognised {D : Type} (A : Arith D) :
    ∀ (pbf : List (ValueField D)) (sv : serial_val),
      (∀ f ∈ pbf, f.recognised = false) → pbf.foldl (readValueField A) sv = sv := by
  intro pbf
  induction pbf with
  | nil => intro sv _; rfl
  | cons f rest ih =>
    intro sv h
    have hf := h f (by simp)
    have hrest : ∀ f2 ∈ rest, f2.recognised = false := fun f2 h2 => h f2 (by simp [h2])
    have hskip : readValueField A sv f = sv := by
      cases f <;> first | rfl | simp [ValueField.recognised] at hf
    rw [List.foldl_cons, hskip]
    exact ih sv hrest

/-- C13: fields of a property-value message whose tag is outside 1..6 are
skipped and never change the result: `readValue` on the message equals
`readValue` on the message with those fields removed; and when the message
has no field with a tag in 1..6 (the empty message included) the result is the
Null value. -/
theorem readValue_unknown_fields {D : Type} (A : Arith D) (pbf : List (ValueField D))
    (keys : List String) :
    readValue A (pbf.filter (fun f => f.recognised)) keys = readValue A pbf keys
    ∧ ((∀ f ∈ pbf, f.recognised = false) → readValue A pbf keys = ⟨.mvt_null, "null"⟩) := by
  constructor
  · exact foldl_readValueField_filter A pbf _
  · intro h
    exact foldl_readValueField_unrecognised A pbf _ h

/-- C13 at concrete messages. -/
theorem readValue_unknown_fields_witness :
    (∀ f ∈ ([.other 7, .other 900] : List (ValueField Int)), f.recognised = false)
    ∧ readValue stub [.other 7, .other 900] [] = ⟨.mvt_null, "null"⟩
    ∧ readValue stub [] [] = ⟨.mvt_null, "null"⟩
    ∧ readValue stub [.other 7, .bool_value true, .other 8] []
        = readValue stub [.bool_value true] [] :=
  ⟨by decide,
    (readValue_unknown_fields stub [.other 7, .other 900] []).2 (by decide),
    by decide, by decide⟩

/-! ## C14: closed runs over the whole buffer -/

theorem pointOf_op {D : Type} (A : Arith D) (e : D) (op : Op) (prev : List Int) (c : draw)
    (h : pointOf A e op prev = some c) : c.op = op := by
  unfold pointOf at h
  split at h
  · simp only [Option.some.injEq] at h
    subst h
    rfl
  · simp at h

theorem readLinePartLoop_ops {D : Type} (A : Arith D) (coords : List Int) (dim : Nat) (e : D)
    (start end_ : Nat) :
    ∀ (fuel i : Nat) (prev : List Int) (dv dv2 : drawvec),
      readLinePartLoop A coords dim e start end_ fuel i prev dv = .ok dv2 →
      (∀ c ∈ dv, c.op ≠ Op.VT_CLOSEPATH) → ∀ c ∈ dv2, c.op ≠ Op.VT_CLOSEPATH := by
  intro fuel
  induction fuel with
  | zero => intro i prev dv dv2 h; simp [readLinePartLoop] at h
  | succ fuel ih =>
    intro i prev dv dv2 h hdv
    rw [readLinePartLoop] at h
    split at h
    · split at h
      · simp at h
      · cases hadd : addDeltas coords i prev with
        | none => rw [hadd] at h; simp at h
        | some prev2 =>
          rw [hadd] at h
          simp only at h
          cases hpt : pointOf A e (if i = start then Op.VT_MOVETO else Op.VT_LINETO) prev2 with
          | none => rw [hpt] at h; simp at h
          | some c =>
            rw [hpt] at h
            simp only at h
            apply ih _ _ _ _ h
            intro c2 hc2
            rcases List.mem_append.mp hc2 with hc2 | hc2
            · exact hdv c2 hc2
            · simp only [List.mem_singleton] at hc2
              subst hc2
              rw [pointOf_op A e _ prev2 c2 hpt]
              split <;> decide
    · simp only [Except.ok.injEq] at h
      subst h
      exact hdv

theorem closeRun_ops (closed : Bool) (dv : drawvec)
    (h : ∀ c ∈ dv, c.op ≠ Op.VT_CLOSEPATH) : ∀ c ∈ closeRun closed dv, c.op ≠ Op.VT_CLOSEPATH := by
  cases closed with
  | false =>
    have h2 : closeRun false dv = dv := by cases dv <;> rfl
    rw [h2]
    exact h
  | true =>
    cases dv with
    | nil => simp [closeRun]
    | cons d0 rest =>
      have h2 : closeRun true (d0 :: rest)
          = (d0 :: rest) ++ [⟨.VT_LINETO, d0.x, d0.y⟩] := rfl
      rw [h2]
      intro c hc
      rcases List.mem_append.mp hc with hc | hc
      · exact h c hc
      · simp only [List.mem_singleton] at hc
        subst hc
        intro hop
        exact Op.noConfusion hop

theorem readLinePart_ops {D : Type} (A : Arith D) (coords lengths : List Int) (dim : Nat)
    (e : D) (start end_ : Nat) (closed : Bool) (dv : drawvec)
    (h : readLinePart A coords lengths dim e start end_ closed = .ok dv) :
    ∀ c ∈ dv, c.op ≠ Op.VT_CLOSEPATH := by
  unfold readLinePart at h
  cases hl : readLinePartLoop A coords dim e start end_ SIZE start (List.replicate dim 0) [] with
  | error err => rw [hl] at h; simp at h
  | ok dv2 =>
    rw [hl] at h
    simp only [Except.ok.injEq] at h
    subst h
    exact closeRun_ops closed dv2
      (readLinePartLoop_ops A coords dim e start end_ _ _ _ _ dv2 hl (by simp))

/-- C14: for every coordinate buffer, a MultiPoint (whatever its `lengths`), a
Polygon with empty `lengths` and a MultiPolygon with empty `lengths` each
decode to the single closed run `readLinePart(0, coords.size(), closed = true)`
over the whole buffer; that run is the LineString result followed, when it is
not empty, by one LineTo back to its first point, and it holds no ClosePath
command. -/
theorem dispatchGeometry_whole_buffer_closed {D : Type} (A : Arith D) (coords : List Int)
    (lengths : List Int) (dim : Nat) (e : D) :
    dispatchGeometry A coords lengths dim e 1
        = readLinePart A coords [] dim e 0 coords.length true
    ∧ dispatchGeometry A coords [] dim e 4
        = readLinePart A coords [] dim e 0 coords.length true
    ∧ dispatchGeometry A coords [] dim e 5
        = readLinePart A coords [] dim e 0 coords.length true
    ∧ readLinePart A coords [] dim e 0 coords.length true
        = (match dispatchGeometry A coords lengths dim e 2 with
            | .error err => .error err
            | .ok dv =>
              match dv with
              | [] => .ok []
              | d0 :: rest => .ok (d0 :: rest ++ [⟨.VT_LINETO, d0.x, d0.y⟩]))
    ∧ (∀ dv, readLinePart A coords [] dim e 0 coords.length true = .ok dv →
        ∀ c ∈ dv, c.op ≠ Op.VT_CLOSEPATH) := by
  refine ⟨?_, ?_, ?_, ?_, ?_⟩
  · simp [dispatchGeometry, readLine, readLinePart]
  · simp [dispatchGeometry, readMultiLine]
  · simp [dispatchGeometry, readMultiPolygon]
  · have hd : dispatchGeometry A coords lengths dim e 2
        = readLinePart A coords lengths dim e 0 coords.length false := by
      simp [dispatchGeometry, readLine]
    rw [hd]
    unfold readLinePart
    cases readLinePartLoop A coords dim e 0 coords.length SIZE 0 (List.replicate dim 0) [] with
    | error err => rfl
    | ok dv => cases dv <;> rfl
  · intro dv h
    exact readLinePart_ops A coords [] dim e 0 coords.length true dv h

/-- C14 at a concrete buffer of two tuples. -/
theorem dispatchGeometry_whole_buffer_closed_witness :
    readLinePart stub [1, 2, 3, 4] [] 2 1 0 [1, 2, 3, (4 : Int)].length true
        = .ok [⟨.VT_MOVETO, 1, 2⟩, ⟨.VT_LINETO, 4, 6⟩, ⟨.VT_LINETO, 1, 2⟩]
    ∧ (∀ c ∈ [(⟨.VT_MOVETO, 1, 2⟩ : draw), ⟨.VT_LINETO, 4, 6⟩, ⟨.VT_LINETO, 1, 2⟩],
        c.op ≠ Op.VT_CLOSEPATH)
    ∧ dispatchGeometry stub [1, 2, 3, 4] [7, 7] 2 1 1
        = .ok [⟨.VT_MOVETO, 1, 2⟩, ⟨.VT_LINETO, 4, 6⟩, ⟨.VT_LINETO, 1, 2⟩]
    ∧ dispatchGeometry stub [1, 2, 3, 4] [] 2 1 4
        = .ok [⟨.VT_MOVETO, 1, 2⟩, ⟨.VT_LINETO, 4, 6⟩, ⟨.VT_LINETO, 1, 2⟩]
    ∧ dispatchGeometry stub [1, 2, 3, 4] [] 2 1 5
        = .ok [⟨.VT_MOVETO, 1, 2⟩, ⟨.VT_LINETO, 4, 6⟩, ⟨.VT_LINETO, 1, 2⟩] :=
  ⟨by decide,
    (dispatchGeometry_whole_buffer_closed stub [1, 2, 3, 4] [7, 7] 2 1).2.2.2.2 _ (by decide),
    by decide, by decide, by decide⟩

/-! ## C15: Point -/

/-- C15: for a Point geometry whose coordinate buffer holds at least 2
scalars, the dispatch of `readGeometry`, and `readGeometry` itself once the
fields of the message are read, return exactly one command, a MoveTo at
`project(coords[0] / e, coords[1] / e, 32)`; the result is the same for every
`lengths`, every dimension and every content of the buffer after index 1. -/
theorem readPoint_single_moveTo {D : Type} (A : Arith D) (coords lengths : List Int)
    (dim : Nat) (e : D) (h : 2 ≤ coords.length) :
    dispatchGeometry A coords lengths dim e 0
        = .ok [drawAt A e .VT_MOVETO (coords.getD 0 0) (coords.getD 1 0)]
    ∧ (∀ (lengths2 : List Int) (dim2 : Nat) (rest : List Int),
        dispatchGeometry A (coords.take 2 ++ rest) lengths2 dim2 e 0
          = dispatchGeometry A coords lengths dim e 0)
    ∧ (∀ (keys : List String) (pbf : List GeometryField) (type0 : Option Int)
        (st : GeometryState),
        readGeometryFields A dim e keys pbf ⟨[], [], type0⟩ = .ok st →
        st.type = some 0 → st.coords = coords →
        readGeometry A dim e keys pbf type0
          = .ok ([drawAt A e .VT_MOVETO (coords.getD 0 0) (coords.getD 1 0)], 1)) := by
  obtain ⟨c0, c1, rest, rfl⟩ : ∃ c0 c1 rest, coords = c0 :: c1 :: rest := by
    match coords, h with
    | c0 :: c1 :: rest, _ => exact ⟨c0, c1, rest, rfl⟩
  refine ⟨?_, ?_, ?_⟩
  · simp [dispatchGeometry, readPoint, drawAt]
  · intro lengths2 dim2 rest2
    simp [dispatchGeometry, readPoint]
  · intro keys pbf type0 st hscan htype hcoords
    simp only [readGeometry, hscan, finishGeometry, htype, hcoords]
    simp [dispatchGeometry, readPoint, drawAt]

/-- C15 at a concrete Point with elevation and a stray `lengths` array. -/
theorem readPoint_single_moveTo_witness :
    2 ≤ [5, 6, (7 : Int)].length
    ∧ dispatchGeometry stub [5, 6, 7] [9] 3 1 0
        = .ok [drawAt stub 1 .VT_MOVETO ([5, 6, (7 : Int)].getD 0 0) ([5, 6, (7 : Int)].getD 1 0)]
    ∧ readGeometry stub 3 1 [] [.type 0, .lengths [9], .coords [5, 6, 7]] none
        = .ok ([⟨.VT_MOVETO, 5, 6⟩], 1) :=
  ⟨by decide, (readPoint_single_moveTo stub [5, 6, 7] [9] 3 1 (by decide)).1, by decide⟩

/-! ## C17: feature ids -/

theorem readFeatureFields_id {D : Type} (A : Arith D) (dim : Nat) (e : D)
    (keys : List String) :
    ∀ (pbf : List (FeatureField D)) (st0 st : FeatureState),
      readFeatureFields A dim e keys pbf st0 = .ok st →
      st.has_id = (st0.has_id || (lastIntId pbf).isSome)
        ∧ st.id = (lastIntId pbf).getD st0.id := by
  intro pbf
  induction pbf with
  | nil =>
    intro st0 st h
    simp only [readFeatureFields, Except.ok.injEq] at h
    subst h
    simp [lastIntId]
  | cons f rest ih =>
    intro st0 st h
    cases f with
    | geometry g =>
      simp only [readFeatureFields] at h
      cases hg : readGeometry A dim e keys g (some st0.type) with
      | error err => rw [hg] at h; simp at h
      | ok r =>
        rw [hg] at h
        simpa [lastIntId] using ih _ st h
    | id s =>
      simp only [readFeatureFields] at h
      simpa [lastIntId] using ih _ st h
    | int_id v =>
      simp only [readFeatureFields] at h
      obtain ⟨h1, h2⟩ := ih _ st h
      simp only [lastIntId]
      cases hl : lastIntId rest with
      | none => rw [hl] at h1 h2; simpa using ⟨h1, h2⟩
      | some w => rw [hl] at h1 h2; simpa using ⟨h1, h2⟩
    | values v =>
      simp only [readFeatureFields] at h
      simpa [lastIntId] using ih _ st h
    | properties xs =>
      simp only [readFeatureFields] at h
      simpa [lastIntId] using ih _ st h
    | other tag =>
      simp only [readFeatureFields] at h
      simpa [lastIntId] using ih _ st h

theorem lastIntId_isSome {D : Type} :
    ∀ (pbf : List (FeatureField D)),
      (lastIntId pbf).isSome = true ↔ ∃ v, FeatureField.int_id v ∈ pbf := by
  intro pbf
  induction pbf with
  | nil => simp [lastIntId]
  | cons f rest ih =>
    cases f with
    | int_id v =>
      simp only [lastIntId]
      constructor
      · intro _; exact ⟨v, by simp⟩
      · intro _; cases lastIntId rest <;> rfl
    | geometry g => simpa [lastIntId] using ih
    | id s => simpa [lastIntId] using ih
    | values v => simpa [lastIntId] using ih
    | properties xs => simpa [lastIntId] using ih
    | other tag => simpa [lastIntId] using ih

theorem readFeatureFields_filter_id {D : Type} (A : Arith D) (dim : Nat) (e : D)
    (keys : List String) :
    ∀ (pbf : List (FeatureField D)) (st0 : FeatureState),
      readFeatureFields A dim e keys (pbf.filter (fun f => !f.isNonNumericId)) st0
        = readFeatureFields A dim e keys pbf st0 := by
  intro pbf
  induction pbf with
  | nil => intro st0; rfl
  | cons f rest ih =>
    intro st0
    rw [List.filter_cons]
    cases f with
    | id s =>
      rw [if_neg (by simp [FeatureField.isNonNumericId])]
      simp only [readFeatureFields]
      exact ih st0
    | geometry g =>
      rw [if_pos (by simp [FeatureField.isNonNumericId])]
      simp only [readFeatureFields]
      cases readGeometry A dim e keys g (some st0.type) with
      | error err => rfl
      | ok r => exact ih _
    | int_id v =>
      rw [if_pos (by simp [FeatureField.isNonNumericId])]
      simp only [readFeatureFields]
      exact ih _
    | values v =>
      rw [if_pos (by simp [FeatureField.isNonNumericId])]
      simp only [readFeatureFields]
      exact ih _
    | properties xs =>
      rw [if_pos (by simp [FeatureField.isNonNumericId])]
      simp only [readFeatureFields]
      exact ih _
    | other tag =>
      rw [if_pos (by simp [FeatureField.isNonNumericId])]
      simp only [readFeatureFields]
      exact ih _

/-- C17: the feature handed to the sink has its id present if and only if the
feature message contains a signed-integer id field (tag 12), and then its id is
the value of the last such field; fields holding a non-numeric id (tag 11) are
skipped: the outcome of `readFeature` is the one for the same message without
them, so a feature whose only id field is non-numeric is emitted with the id
absent and is otherwise the same. -/
theorem readFeature_id {D : Type} (A : Arith D) (pbf : List (FeatureField D))
    (dim : Nat) (e : D) (keys : List String) (sst : serialization_state) (layer : Int)
    (layername : String) :
    (∀ sf, (readFeature A pbf dim e keys sst layer layername).sst.calls = sst.calls ++ [sf] →
        (sf.has_id = true ↔ ∃ v, FeatureField.int_id v ∈ pbf)
        ∧ (∀ v, lastIntId pbf = some v → sf.id = v))
    ∧ readFeature A (pbf.filter (fun f => !f.isNonNumericId)) dim e keys sst layer layername
        = readFeature A pbf dim e keys sst layer layername := by
  constructor
  · intro sf hsf
    obtain ⟨st, hscan, _, hhas, hid, _⟩ := readFeature_emitted A pbf dim e keys sst layer
      layername sf hsf
    obtain ⟨h1, h2⟩ := readFeatureFields_id A dim e keys pbf _ st hscan
    simp only [featureInit, Bool.false_or] at h1 h2
    constructor
    · rw [hhas, h1]
      exact lastIntId_isSome pbf
    · intro v hv
      rw [hid, h2, hv]
      rfl
  · unfold readFeature
    rw [readFeatureFields_filter_id]

/-- C17 at concrete features: a non-numeric id alone leaves the id absent and
the feature equal to the one without that field; of two integer ids the last
one is recorded. -/
theorem readFeature_id_witness :
    (readFeature stub featureStringId 2 1 [] sst0 0 "layer").sst.calls
        = sst0.calls ++ [⟨0, "layer", 0, false, 0, false, false, 0, 0, [], 0, [], [], 0⟩]
    ∧ ((false = true ↔ ∃ v, FeatureField.int_id v ∈ featureStringId)
        ∧ ∀ v, lastIntId featureStringId = some v → (0 : Int) = v)
    ∧ (readFeature stub featureStringId 2 1 [] sst0 0 "layer").sst.calls
        = (readFeature stub [.values [.bool_value true]] 2 1 [] sst0 0 "layer").sst.calls
    ∧ (readFeature stub featureTwoIds 2 1 [] sst0 0 "layer").sst.calls.map
          (fun sf => (sf.has_id, sf.id)) = [(true, -9)] := by
  have h := (readFeature_id stub featureStringId 2 1 [] sst0 0 "layer").1
    ⟨0, "layer", 0, false, 0, false, false, 0, 0, [], 0, [], [], 0⟩ (by decide)
  exact ⟨by decide, h, by decide, by decide⟩

/-! ## C18: dimensions beyond the first two -/

theorem prevAfter_congr_dim {c1 c2 : List Int} {dim1 dim2 s1 s2 d m : Nat}
    (h : ∀ k, k < m → c1.getD (s1 + k * dim1 + d) 0 = c2.getD (s2 + k * dim2 + d) 0) :
    ∀ k, k ≤ m → prevAfter c1 dim1 s1 d k = prevAfter c2 dim2 s2 d k := by
  intro k
  induction k with
  | zero => intro _; rfl
  | succ k ih =>
    intro hk
    rw [prevAfter, prevAfter, ih (by omega), h k (by omega)]

theorem runCommands_congr_dim {D : Type} (A : Arith D) (e : D) {c1 c2 : List Int}
    {dim1 dim2 s1 s2 m : Nat}
    (h : ∀ k d, k < m → d < 2 →
      c1.getD (s1 + k * dim1 + d) 0 = c2.getD (s2 + k * dim2 + d) 0) :
    runCommands A e c1 dim1 s1 m = runCommands A e c2 dim2 s2 m := by
  unfold runCommands
  apply List.map_congr_left
  intro k hk
  have hk2 : k < m := by simpa using hk
  simp only [runCommand]
  rw [prevAfter_congr_dim (fun j hj => h j 0 hj (by omega)) (k + 1) (by omega),
    prevAfter_congr_dim (fun j hj => h j 1 hj (by omega)) (k + 1) (by omega)]

theorem keepTwo_length {dim : Nat} (hdim : 2 ≤ dim) :
    ∀ (n : Nat) (coords : List Int), n * dim ≤ coords.length →
      (keepTwo dim n coords).length = 2 * n := by
  intro n
  induction n with
  | zero => intro coords _; rfl
  | succ n ih =>
    intro coords h
    have hs : (n + 1) * dim = n * dim + dim := Nat.succ_mul n dim
    rw [keepTwo, List.length_append, List.length_take, ih (coords.drop dim)
      (by rw [List.length_drop]; omega)]
    omega

theorem keepTwo_getD {dim : Nat} (hdim : 2 ≤ dim) :
    ∀ (n : Nat) (coords : List Int) (k d : Nat), n * dim ≤ coords.length → k < n → d < 2 →
      (keepTwo dim n coords).getD (k * 2 + d) 0 = coords.getD (k * dim + d) 0 := by
  intro n
  induction n with
  | zero => intro coords k d _ hk; omega
  | succ n ih =>
    intro coords k d h hk hd
    have hs : (n + 1) * dim = n * dim + dim := Nat.succ_mul n dim
    have htake : (coords.take 2).length = 2 := by
      rw [List.length_take]
      omega
    rw [keepTwo]
    cases k with
    | zero =>
      simp only [Nat.zero_mul, Nat.zero_add, List.getD_eq_getElem?_getD]
      rw [List.getElem?_append_left (by omega), List.getElem?_take_of_lt hd]
    | succ k =>
      have hk2 : (k + 1) * 2 + d = 2 + (k * 2 + d) := by omega
      have hk3 : (k + 1) * dim + d = dim + (k * dim + d) := by
        rw [Nat.succ_mul]
        omega
      have hrec := ih (coords.drop dim) k d (by rw [List.length_drop]; omega) (by omega) hd
      simp only [List.getD_eq_getElem?_getD] at hrec ⊢
      rw [hk2, hk3, List.getElem?_append_right (by omega), htake, Nat.add_sub_cancel_left, hrec,
        List.getElem?_drop]

/-- C18: for every `dim ≥ 2` and every buffer of `n * dim` scalars (a
`std::vector`, so shorter than `2^63`), `readLinePart` over the whole buffer
with dimension `dim` returns what `readLinePart` with dimension 2 returns over
the buffer of `2 * n` scalars that keeps the first two scalars of each tuple,
with the same `closed` flag and scale. -/
theorem readLinePart_first_two_dimensions {D : Type} (A : Arith D) (e : D)
    (coords lengths : List Int) (dim n : Nat) (closed : Bool) (hdim : 2 ≤ dim)
    (hlen : coords.length = n * dim) (hmax : coords.length < 9223372036854775808) :
    (keepTwo dim n coords).length = 2 * n
    ∧ readLinePart A coords lengths dim e 0 coords.length closed
        = readLinePart A (keepTwo dim n coords) lengths 2 e 0 (keepTwo dim n coords).length
            closed := by
  have hklen := keepTwo_length hdim n coords (by omega)
  refine ⟨hklen, ?_⟩
  by_cases hn : n = 0
  · subst hn
    have hnil : coords = [] := List.eq_nil_of_length_eq_zero (by omega)
    subst hnil
    simp [keepTwo, readLinePart, SIZE, readLinePartLoop]
  · have hle : dim ≤ n * dim := Nat.le_mul_of_pos_left dim (by omega)
    have h2n : n * 2 ≤ n * dim := Nat.mul_le_mul_left n hdim
    rw [@readLinePart_run D A e coords lengths dim 0 coords.length n closed hdim (by omega)
        (by omega) (by omega) (by unfold SIZE; omega),
      @readLinePart_run D A e (keepTwo dim n coords) lengths 2 0 _ n closed (by omega)
        (by omega) (by omega) (by omega) (by unfold SIZE; omega)]
    congr 2
    apply runCommands_congr_dim
    intro k d hk hd
    rw [Nat.zero_add, Nat.zero_add, keepTwo_getD hdim n coords k d (by omega) hk hd]

/-- C18 at a concrete buffer: two tuples with an elevation. -/
theorem readLinePart_first_two_dimensions_witness :
    (2 ≤ 3 ∧ [1, 2, 100, 3, 4, (200 : Int)].length = 2 * 3
      ∧ [1, 2, 100, 3, 4, (200 : Int)].length < 9223372036854775808)
    ∧ keepTwo 3 2 [1, 2, 100, 3, 4, 200] = [1, 2, 3, 4]
    ∧ readLinePart stub [1, 2, 100, 3, 4, 200] [] 3 1 0 [1, 2, 100, 3, 4, (200 : Int)].length
          true
        = readLinePart stub (keepTwo 3 2 [1, 2, 100, 3, 4, 200]) [] 2 1 0
            (keepTwo 3 2 [1, 2, 100, 3, 4, 200]).length true
    ∧ readLinePart stub [1, 2, 100, 3, 4, 200] [] 3 1 0 6 true
        = .ok [⟨.VT_MOVETO, 1, 2⟩, ⟨.VT_LINETO, 4, 6⟩, ⟨.VT_LINETO, 1, 2⟩] :=
  ⟨⟨by decide, by decide, by decide⟩, by decide,
    (readLinePart_first_two_dimensions stub 1 [1, 2, 100, 3, 4, 200] [] 3 2 true (by decide)
      (by decide) (by decide)).2,
    by decide⟩

/-! ## C20: scalars outside the runs -/

theorem multiRuns_congr {D : Type} (A : Arith D) (e : D) {c1 c2 : List Int} {dim : Nat}
    (closed : Bool) (hdim : 2 ≤ dim) :
    ∀ (ls : List Nat) (here : Nat),
      (∀ i, i < here + ls.sum * dim → c1.getD i 0 = c2.getD i 0) →
      multiRuns A e c1 dim closed ls here = multiRuns A e c2 dim closed ls here := by
  intro ls
  induction ls with
  | nil => intro here _; rfl
  | cons l ls ih =>
    intro here h
    have hsum : (l + ls.sum) * dim = l * dim + ls.sum * dim := Nat.add_mul _ _ _
    rw [List.sum_cons, hsum] at h
    rw [multiRuns, multiRuns, ih (here + l * dim) (fun i hi => h i (by omega))]
    congr 2
    apply runCommands_congr
    intro k d hk hd
    have h1 : (k + 1) * dim ≤ l * dim := Nat.mul_le_mul_right dim (by omega)
    have h2 : (k + 1) * dim = k * dim + dim := Nat.succ_mul k dim
    exact h _ (by omega)

theorem getD_eq_of_take_eq {c1 c2 : List Int} {m : Nat} (h : c1.take m = c2.take m) :
    ∀ i, i < m → c1.getD i 0 = c2.getD i 0 := by
  intro i hi
  have h1 : (c1.take m)[i]? = c1[i]? := List.getElem?_take_of_lt hi
  have h2 : (c2.take m)[i]? = c2[i]? := List.getElem?_take_of_lt hi
  rw [List.getD_eq_getElem?_getD, List.getD_eq_getElem?_getD, ← h1, ← h2, h]

/-- C20: scalars that no run covers are dropped without error.  For a Polygon
with non-empty tuple counts `ls` whose runs all fit in the buffer, the result
of `readMultiLine` is the same for every buffer with the same first
`ls.sum * dim` scalars, so appending further scalars leaves it unchanged; and
for the whole-buffer run `readLine` over a buffer of `n * dim + r` scalars with
`0 < r < dim`, the result is the one over the first `n * dim` scalars.  (`dim`
and the buffer lengths are sizes of `std::vector<long long>` objects, so below
`2^63`.) -/
theorem readMultiLine_ignores_uncovered {D : Type} (A : Arith D) (e : D) (coords : List Int)
    (dim : Nat) (hdim : 2 ≤ dim) (hdimmax : dim < 9223372036854775808)
    (hmax : coords.length < 9223372036854775808) :
    (∀ (ls : List Nat) (coords2 : List Int), ls ≠ [] → ls.sum * dim ≤ coords.length →
        ls.sum * dim ≤ coords2.length → coords2.length < 9223372036854775808 →
        coords2.take (ls.sum * dim) = coords.take (ls.sum * dim) →
        readMultiLine A coords2 (ls.map Int.ofNat) dim e true
            = readMultiLine A coords (ls.map Int.ofNat) dim e true
          ∧ ∃ dv, readMultiLine A coords (ls.map Int.ofNat) dim e true = .ok dv)
    ∧ (∀ (ls : List Nat) (extra : List Int), ls ≠ [] → ls.sum * dim ≤ coords.length →
        (coords ++ extra).length < 9223372036854775808 →
        readMultiLine A (coords ++ extra) (ls.map Int.ofNat) dim e true
          = readMultiLine A coords (ls.map Int.ofNat) dim e true)
    ∧ (∀ (lengths : List Int) (n r : Nat) (closed : Bool), coords.length = n * dim + r →
        0 < r → r < dim →
        readLine A coords lengths dim e closed
            = readLine A (coords.take (n * dim)) lengths dim e closed
          ∧ ∃ dv, readLine A coords lengths dim e closed = .ok dv) := by
  have hfirst : ∀ (ls : List Nat) (coords2 : List Int), ls ≠ [] →
      ls.sum * dim ≤ coords.length → ls.sum * dim ≤ coords2.length →
      coords2.length < 9223372036854775808 →
      coords2.take (ls.sum * dim) = coords.take (ls.sum * dim) →
      readMultiLine A coords2 (ls.map Int.ofNat) dim e true
          = readMultiLine A coords (ls.map Int.ofNat) dim e true
        ∧ ∃ dv, readMultiLine A coords (ls.map Int.ofNat) dim e true = .ok dv := by
    intro ls coords2 hne hfit hfit2 hmax2 htake
    have hlen : (ls.map Int.ofNat).length ≠ 0 := by
      cases ls with
      | nil => exact absurd rfl hne
      | cons l ls => simp
    have h1 := readMultiLineLoop_run A e coords (ls.map Int.ofNat) true hdim hdimmax hmax ls 0
      [] (by omega)
    have h2 := readMultiLineLoop_run A e coords2 (ls.map Int.ofNat) true hdim hdimmax hmax2 ls
      0 [] (by omega)
    rw [readMultiLine, readMultiLine, if_neg hlen, if_neg hlen, h1, h2,
      multiRuns_congr A e true hdim ls 0
        (fun i hi => getD_eq_of_take_eq htake i (by omega))]
    exact ⟨rfl, _, rfl⟩
  refine ⟨hfirst, ?_, ?_⟩
  · intro ls extra hne hfit hmax2
    refine (hfirst ls (coords ++ extra) hne hfit ?_ hmax2 ?_).1
    · rw [List.length_append]
      omega
    · rw [List.take_append_of_le_length hfit]
  · intro lengths n r closed hlen hr0 hr
    have htl : (coords.take (n * dim)).length = n * dim := by
      rw [List.length_take]
      omega
    rw [readLine, readLine, htl,
      @readLinePart_run D A e coords lengths dim 0 coords.length n closed hdim (by omega)
        (by omega) (by omega) (by unfold SIZE; omega),
      @readLinePart_run D A e (coords.take (n * dim)) lengths dim 0 (n * dim) n closed hdim
        (by omega) (by omega) (by omega) (by unfold SIZE; omega)]
    refine ⟨?_, _, rfl⟩
    congr 2
    apply runCommands_congr
    intro k d hk hd
    have h1 : (k + 1) * dim ≤ n * dim := Nat.mul_le_mul_right dim (by omega)
    have h2 : (k + 1) * dim = k * dim + dim := Nat.succ_mul k dim
    have hidx : 0 + k * dim + d < n * dim := by omega
    rw [List.getD_eq_getElem?_getD, List.getD_eq_getElem?_getD,
      List.getElem?_take_of_lt hidx]

/-- C20 at concrete buffers: a ring of two tuples followed by three stray
scalars, and a line of two tuples of width 3 followed by two stray scalars. -/
theorem readMultiLine_ignores_uncovered_witness :
    (2 ≤ 2 ∧ 2 < 9223372036854775808 ∧ [1, 2, 3, (4 : Int)].length < 9223372036854775808
      ∧ [2] ≠ ([] : List Nat) ∧ [2].sum * 2 ≤ [1, 2, 3, (4 : Int)].length
      ∧ ([1, 2, 3, (4 : Int)] ++ [7, 8, 9]).length < 9223372036854775808)
    ∧ readMultiLine stub ([1, 2, 3, 4] ++ [7, 8, 9]) ([2].map Int.ofNat) 2 1 true
        = readMultiLine stub [1, 2, 3, 4] ([2].map Int.ofNat) 2 1 true
    ∧ readMultiLine stub [1, 2, 3, 4, 7, 8, 9] [2] 2 1 true
        = .ok [⟨.VT_MOVETO, 1, 2⟩, ⟨.VT_LINETO, 4, 6⟩, ⟨.VT_LINETO, 1, 2⟩]
    ∧ readLine stub [1, 2, 0, 3, 4, 0, 50, 60] [] 3 1 false
        = .ok [⟨.VT_MOVETO, 1, 2⟩, ⟨.VT_LINETO, 4, 6⟩]
    ∧ readLine stub [1, 2, 0, 3, 4, 0] [] 3 1 false
        = .ok [⟨.VT_MOVETO, 1, 2⟩, ⟨.VT_LINETO, 4, 6⟩] :=
  ⟨⟨by decide, by decide, by decide, by decide, by decide, by decide⟩,
    (readMultiLine_ignores_uncovered stub 1 [1, 2, 3, 4] 2 (by decide) (by decide)
      (by decide)).2.1 [2] [7, 8, 9] (by decide) (by decide) (by decide),
    by decide, by decide, by decide⟩

/-! ## C19: the reads of `lengths` in `readMultiPolygon` -/

theorem readLinePartLoop_not_lengths {D : Type} (A : Arith D) (coords : List Int) (dim : Nat)
    (e : D) (start end_ : Nat) (idx s : Nat) :
    ∀ (fuel i : Nat) (prev : List Int) (dv : drawvec),
      readLinePartLoop A coords dim e start end_ fuel i prev dv
        ≠ .error (.lengthsOutOfRange idx s) := by
  intro fuel
  induction fuel with
  | zero => intro i prev dv; simp [readLinePartLoop]
  | succ fuel ih =>
    intro i prev dv
    rw [readLinePartLoop]
    split
    · split
      · simp
      · cases addDeltas coords i prev with
        | none => simp
        | some prev2 =>
          simp only
          cases pointOf A e (if i = start then Op.VT_MOVETO else Op.VT_LINETO) prev2 with
          | none => simp
          | some c => exact ih _ _ _
    · simp

theorem readLinePart_not_lengths {D : Type} (A : Arith D) (coords lengths : List Int)
    (dim : Nat) (e : D) (start end_ : Nat) (closed : Bool) (idx s : Nat) :
    readLinePart A coords lengths dim e start end_ closed
      ≠ .error (.lengthsOutOfRange idx s) := by
  unfold readLinePart
  cases hl : readLinePartLoop A coords dim e start end_ SIZE start (List.replicate dim 0) [] with
  | error err =>
    intro h
    simp only [Except.error.injEq] at h
    subst h
    exact readLinePartLoop_not_lengths A coords dim e start end_ idx s _ _ _ _ hl
  | ok dv => simp

theorem readRings_cursor {D : Type} (A : Arith D) (e : D) (coords lengths : List Int)
    (dim : Nat) :
    ∀ (rings : List Nat) (st0 : PolyState) (rest : List Int),
      lengths.drop st0.n = rings.map Int.ofNat ++ rest →
      (∀ st, readRings A coords lengths dim e rings.length st0 = .ok st →
          st.n = st0.n + rings.length)
      ∧ (∀ idx s, readRings A coords lengths dim e rings.length st0
          ≠ .error (.lengthsOutOfRange idx s)) := by
  intro rings
  induction rings with
  | nil =>
    intro st0 rest _
    constructor
    · intro st h
      simp only [List.length_nil, readRings, Except.ok.injEq] at h
      subst h
      rfl
    · intro idx s
      simp [readRings]
  | cons c cs ih =>
    intro st0 rest hdrop
    have hdrop1 : lengths.drop st0.n = Int.ofNat c :: (cs.map Int.ofNat ++ rest) := hdrop
    obtain ⟨hget, hdrop2⟩ := drop_eq_cons hdrop1
    simp only [List.length_cons, readRings, hget]
    cases hrun : readLinePart A coords lengths dim e st0.here
        ((st0.here + (toSize (Int.ofNat c) * dim) % 18446744073709551616)
          % 18446744073709551616) true with
    | error err =>
      constructor
      · intro st h
        simp at h
      · intro idx s h
        simp only [Except.error.injEq] at h
        subst h
        exact readLinePart_not_lengths A coords lengths dim e _ _ true idx s hrun
    | ok dv2 =>
      simp only
      obtain ⟨h1, h2⟩ := ih ⟨st0.n + 1,
        (st0.here + (toSize (Int.ofNat c) * dim) % 18446744073709551616)
          % 18446744073709551616, st0.dv ++ dv2⟩ rest hdrop2
      constructor
      · intro st h
        have := h1 st h
        simp only at this
        omega
      · exact h2

theorem readPolys_cursor {D : Type} (A : Arith D) (e : D) (coords lengths : List Int)
    (dim : Nat) :
    ∀ (polys : List (List Nat)) (st0 : PolyState) (rest : List Int),
      lengths.drop st0.n
        = (polys.map (fun r => Int.ofNat r.length :: r.map Int.ofNat)).flatten ++ rest →
      (∀ rings ∈ polys, rings.length < 2147483648) →
      (∀ st, readPolys A coords lengths dim e polys.length st0 = .ok st →
          st.n = st0.n + polys.length + totalRings polys)
      ∧ (∀ idx s, readPolys A coords lengths dim e polys.length st0
          ≠ .error (.lengthsOutOfRange idx s)) := by
  intro polys
  induction polys with
  | nil =>
    intro st0 rest _ _
    constructor
    · intro st h
      simp only [List.length_nil, readPolys, Except.ok.injEq] at h
      subst h
      simp [totalRings]
    · intro idx s
      simp [readPolys]
  | cons rings polys ih =>
    intro st0 rest hdrop hint
    have hrtot : totalRings (rings :: polys) = rings.length + totalRings polys := by
      simp [totalRings]
    rw [multiPolygonLengths_cons_drop] at hdrop
    obtain ⟨hget, hdrop2⟩ := drop_eq_cons hdrop
    have hr : toSize (Int.ofNat rings.length) = rings.length :=
      toSize_natCast _ (by have := hint rings (by simp); omega)
    simp only [List.length_cons, readPolys, hget, hr]
    obtain ⟨hr1, hr2⟩ := readRings_cursor A e coords lengths dim rings
      ⟨st0.n + 1, st0.here, st0.dv⟩ _ hdrop2
    cases hrings : readRings A coords lengths dim e rings.length ⟨st0.n + 1, st0.here, st0.dv⟩
      with
    | error err =>
      constructor
      · intro st h
        simp at h
      · intro idx s h
        simp only [Except.error.injEq] at h
        subst h
        exact hr2 idx s hrings
    | ok st2 =>
      simp only
      have hn2 := hr1 st2 hrings
      simp only at hn2
      have hdrop3 := drop_eq_append hdrop2
      rw [List.length_map, ← hn2] at hdrop3
      obtain ⟨h1, h2⟩ := ih ⟨st2.n, st2.here, st2.dv ++ [⟨.VT_CLOSEPATH, 0, 0⟩]⟩ rest hdrop3
        (fun r hr2 => hint r (by simp [hr2]))
      constructor
      · intro st h
        have := h1 st h
        simp only at this
        omega
      · exact h2

theorem multiPolygonLengths_length (polys : List (List Nat)) :
    (multiPolygonLengths polys).length = 1 + polys.length + totalRings polys := by
  have h : ∀ ps : List (List Nat),
      ((ps.map (fun r => Int.ofNat r.length :: r.map Int.ofNat)).flatten).length
        = ps.length + totalRings ps := by
    intro ps
    induction ps with
    | nil => simp [totalRings]
    | cons r ps ih =>
      simp only [List.map_cons, List.flatten_cons, List.length_append, List.length_cons,
        List.length_map, ih, totalRings, List.sum_cons]
      omega
  simp only [multiPolygonLengths, List.length_cons, h]
  omega

/-- C19: for a MultiPolygon whose `lengths` array is well-formed (the number
`P` of polygons, then for each polygon its ring count followed by exactly that
many ring tuple-counts, nothing missing; the counts are `int` values),
whatever the buffer and the dimension: no read of `lengths` in
`readMultiPolygon` is outside the array, and when the loops run to their end
the cursor `n` stands at `1 + P + (total number of rings)`, which is
`lengths.size()`. -/
theorem readMultiPolygon_lengths_reads {D : Type} (A : Arith D) (e : D) (coords : List Int)
    (polys : List (List Nat)) (dim : Nat) (hpolys : polys.length < 2147483648)
    (hrings : ∀ rings ∈ polys, rings.length < 2147483648) :
    (∀ idx s, readPolys A coords (multiPolygonLengths polys) dim e
        (toSize (Int.ofNat polys.length)) ⟨1, 0, []⟩ ≠ .error (.lengthsOutOfRange idx s))
    ∧ (∀ idx s, readMultiPolygon A coords (multiPolygonLengths polys) dim e
        ≠ .error (.lengthsOutOfRange idx s))
    ∧ (∀ st, readPolys A coords (multiPolygonLengths polys) dim e
          (toSize (Int.ofNat polys.length)) ⟨1, 0, []⟩ = .ok st →
        st.n = 1 + polys.length + totalRings polys
          ∧ st.n = (multiPolygonLengths polys).length) := by
  have hP : toSize (Int.ofNat polys.length) = polys.length := toSize_natCast _ (by omega)
  obtain ⟨h1, h2⟩ := readPolys_cursor A e coords (multiPolygonLengths polys) dim polys
    ⟨1, 0, []⟩ [] (by simp [multiPolygonLengths]) hrings
  rw [hP]
  refine ⟨h2, ?_, ?_⟩
  · intro idx s h
    simp only [readMultiPolygon, multiPolygonLengths, hP] at h
    simp only [multiPolygonLengths] at h2
    cases hp : readPolys A coords
        (Int.ofNat polys.length
          :: (polys.map (fun rings => Int.ofNat rings.length :: rings.map Int.ofNat)).flatten)
        dim e polys.length ⟨1, 0, []⟩ with
    | error err =>
      rw [hp] at h
      simp only [Except.error.injEq] at h
      subst h
      exact h2 idx s hp
    | ok st =>
      rw [hp] at h
      simp at h
  · intro st h
    have := h1 st h
    simp only at this
    rw [multiPolygonLengths_length]
    omega

/-- C19 at concrete inputs: `lengths = [2, 1,4, 2,3,5]` over a buffer that is
too short ends in the line-segment error, not in a read outside `lengths`;
over an empty buffer with rings of no tuples the cursor ends at 6. -/
theorem readMultiPolygon_lengths_reads_witness :
    ([[4], [3, 5]].length < 2147483648 ∧ ∀ rings ∈ [[4], [3, 5]], rings.length < 2147483648)
    ∧ (∀ idx s, readMultiPolygon stub [1, 2] (multiPolygonLengths [[4], [3, 5]]) 2 1
        ≠ .error (.lengthsOutOfRange idx s))
    ∧ readMultiPolygon stub [1, 2] [2, 1, 4, 2, 3, 5] 2 1 = .error (.lineSegment 3 2)
    ∧ ((readPolys stub [] [2, 1, 0, 2, 0, 0] 2 1 2 ⟨1, 0, []⟩).toOption.map (fun st => st.n))
        = some 6
    ∧ readMultiPolygon stub [] [2, 1, 0, 2, 0] 2 1 = .error (.lengthsOutOfRange 5 5) :=
  ⟨⟨by decide, by decide⟩,
    (readMultiPolygon_lengths_reads stub 1 [1, 2] [[4], [3, 5]] 2 (by decide) (by decide)).2.1,
    by decide, by decide, by decide⟩

end Geobuf
